import Mathlib

/-!
# go-yenc: a shallow embedding of `yenc.go` and its verified properties

Bytes are natural numbers below 256; Go's wrapping `byte` arithmetic is written
with an explicit `% 256`, the `uint32` counter of `Decode` with `% 4294967296`.
Go strings and byte buffers are lists of bytes.  The reader handed to `Encode`
and `Decode` is the list of bytes it yields before `io.EOF`, which it reports on a
`Read` of its own that yields no byte; the writer is the list of bytes written to it.
Readers and writers never fail otherwise.
-/

namespace Yenc

/-! ## Constants (yenc.go, lines 30-38) -/

/-- The constant `Answer byte = 0x2A`. -/
def Answer : Nat := 0x2A

/-- The constant `Escape byte = 0x3D`. -/
def Escape : Nat := 0x3D

/-- The constant `Crit byte = 0x40`. -/
def Crit : Nat := 0x40

/-- The constant `Ybegin = "=ybegin"`. -/
def Ybegin : List Nat := [0x3D, 0x79, 0x62, 0x65, 0x67, 0x69, 0x6E]

/-- The constant `Yend = "=yend"`. -/
def Yend : List Nat := [0x3D, 0x79, 0x65, 0x6E, 0x64]

/-- The constant `Ypart = "=ypart"`. -/
def Ypart : List Nat := [0x3D, 0x79, 0x70, 0x61, 0x72, 0x74]

/-- The two bytes `'\r'`, `'\n'`. -/
def CRLF : List Nat := [0x0D, 0x0A]

/-- IsCritical (yenc.go, lines 230-232). -/
def IsCritical (b : Nat) : Bool :=
  b == 0x00 || b == 0x0A || b == 0x0D || b == Escape

/-! ## Library functions used by `Encode` -/

/-- Decimal digits, most significant first, pushed in front of `acc`
(the loop of `strconv.FormatUint` in base 10). -/
def formatDigits : Nat → Nat → List Nat → List Nat
  | 0, _, acc => acc
  | fuel + 1, n, acc =>
    if n < 10 then (0x30 + n) :: acc
    else formatDigits fuel (n / 10) ((0x30 + n % 10) :: acc)

/-- The function `strconv.FormatUint(n, 10)`, also the verb `%d` on a non-negative value. -/
def FormatUint (n : Nat) : List Nat := formatDigits (n + 1) n []

/-- The verb `%d` of `fmt.Fprintf` on a Go `int`. -/
def formatInt (i : Int) : List Nat :=
  if i < 0 then 0x2D :: FormatUint i.natAbs else FormatUint i.toNat

/-- One lowercase hexadecimal digit. -/
def hexDigit (d : Nat) : Nat := if d < 10 then 0x30 + d else 0x61 + (d - 10)

/-- Hexadecimal digits, most significant first, pushed in front of `acc`. -/
def hexDigits : Nat → Nat → List Nat → List Nat
  | 0, _, acc => acc
  | fuel + 1, n, acc =>
    if n < 16 then hexDigit n :: acc
    else hexDigits fuel (n / 16) (hexDigit (n % 16) :: acc)

/-- The verb `%08x` of `fmt.Fprintf` on an unsigned value: lowercase hexadecimal,
padded on the left with `'0'` up to width 8. -/
def formatHex08 (n : Nat) : List Nat :=
  let ds := hexDigits (n + 1) n []
  List.replicate (8 - ds.length) 0x30 ++ ds

/-- One bit step of the reflected CRC-32 with the IEEE polynomial `0xEDB88320`. -/
def crcShift (c : Nat) : Nat :=
  if c % 2 = 1 then (c / 2) ^^^ 0xEDB88320 else c / 2

/-- The CRC register after one more input byte. -/
def crcUpdate (c b : Nat) : Nat :=
  crcShift (crcShift (crcShift (crcShift (crcShift (crcShift (crcShift (crcShift (c ^^^ b))))))))

/-- The function `crc32.ChecksumIEEE` of Go's `hash/crc32`. -/
def ChecksumIEEE (data : List Nat) : Nat :=
  (data.foldl crcUpdate 0xFFFFFFFF) ^^^ 0xFFFFFFFF

/-! ## Encode (yenc.go, lines 43-104) -/

/-- The state of the reading loops of `Encode`: the unread input `rd`, the buffers
`inBuf` and `outBuf`, and whether `err` is `io.EOF` (it is `nil` otherwise). -/
structure EncState where
  rd : List Nat
  inBuf : List Nat
  outBuf : List Nat
  eof : Bool
  deriving DecidableEq, Repr

/-- Lines 70-79: the bytes appended to `outBuf` for the raw byte `b`. -/
def encodeByte (b : Nat) : List Nat :=
  if IsCritical ((b + Answer) % 256) then [Escape, (b + Crit) % 256]
  else [(b + Answer) % 256]

/-- The inner loop `for l := 0; l < lineLength; l++` (lines 63-80), with `n` the
number of iterations still allowed, `lineLength - l`. -/
def innerLoop : Nat → EncState → EncState
  | 0, s => s
  | n + 1, s =>
    match s.rd with
    | [] => { s with eof := true }
    | b :: rest =>
      innerLoop n { s with rd := rest, inBuf := s.inBuf ++ [b], outBuf := s.outBuf ++ encodeByte b }

/-- The outer loop `for err == nil` (lines 61-84), entered with `err == nil`.  It
returns `none` when `fuel` iterations were not enough to leave the loop. -/
def outerLoop (lineLength : Int) : Nat → EncState → Option EncState
  | 0, _ => none
  | fuel + 1, s =>
    let s1 := innerLoop lineLength.toNat s
    let s2 := { s1 with outBuf := s1.outBuf ++ CRLF }
    if s2.eof then some s2 else outerLoop lineLength fuel s2

/-- The header line written by line 92. -/
def headerLine (lineLength : Int) (size : Nat) (filename : List Nat) : List Nat :=
  Ybegin ++ [0x20, 0x6C, 0x69, 0x6E, 0x65, 0x3D] ++ formatInt lineLength
    ++ [0x20, 0x73, 0x69, 0x7A, 0x65, 0x3D] ++ FormatUint size
    ++ [0x20, 0x6E, 0x61, 0x6D, 0x65, 0x3D] ++ filename ++ CRLF

/-- The footer line written by line 102. -/
def footerLine (size : Nat) (crc : Nat) : List Nat :=
  Yend ++ [0x20, 0x73, 0x69, 0x7A, 0x65, 0x3D] ++ FormatUint size
    ++ [0x20, 0x63, 0x72, 0x63, 0x33, 0x32, 0x3D] ++ formatHex08 crc ++ CRLF

/-- Encode: the bytes written to `out`, or `none` when the reading loop does not
finish within `fuel` iterations of the outer loop. -/
def Encode (fuel : Nat) (input : List Nat) (lineLength : Int) (filename : List Nat) :
    Option (List Nat) :=
  match outerLoop lineLength fuel { rd := input, inBuf := [], outBuf := [], eof := false } with
  | none => none
  | some s =>
    some (headerLine lineLength s.inBuf.length filename ++ s.outBuf
      ++ footerLine s.inBuf.length (ChecksumIEEE s.inBuf))

/-! ## Library functions used by `Decode` -/

/-- The function `strings.HasPrefix`. -/
def HasPrefix (s p : List Nat) : Bool := p.isPrefixOf s

/-- The function `strings.TrimPrefix`. -/
def TrimPrefix (s p : List Nat) : List Nat :=
  if HasPrefix s p then s.drop p.length else s

/-- The UTF-8 encodings of the code points on which `unicode.IsSpace` holds:
U+0009..U+000D, U+0020, U+0085, U+00A0, U+1680, U+2000..U+200A, U+2028, U+2029,
U+202F, U+205F and U+3000. -/
def spaceRunes : List (List Nat) :=
  [[0x09], [0x0A], [0x0B], [0x0C], [0x0D], [0x20], [0xC2, 0x85], [0xC2, 0xA0],
   [0xE1, 0x9A, 0x80],
   [0xE2, 0x80, 0x80], [0xE2, 0x80, 0x81], [0xE2, 0x80, 0x82], [0xE2, 0x80, 0x83],
   [0xE2, 0x80, 0x84], [0xE2, 0x80, 0x85], [0xE2, 0x80, 0x86], [0xE2, 0x80, 0x87],
   [0xE2, 0x80, 0x88], [0xE2, 0x80, 0x89], [0xE2, 0x80, 0x8A],
   [0xE2, 0x80, 0xA8], [0xE2, 0x80, 0xA9], [0xE2, 0x80, 0xAF], [0xE2, 0x81, 0x9F],
   [0xE3, 0x80, 0x80]]

/-- The string without its first rune when that rune is white space. -/
def dropSpaceRune (s : List Nat) : Option (List Nat) :=
  match spaceRunes.find? (fun r => r.isPrefixOf s) with
  | some r => some (s.drop r.length)
  | none => none

/-- Leading white space removed (at most `fuel` runes of it). -/
def trimLeftSpace : Nat → List Nat → List Nat
  | 0, s => s
  | fuel + 1, s =>
    match dropSpaceRune s with
    | some t => trimLeftSpace fuel t
    | none => s

/-- The reversed string without its first bytes when they are, read backwards,
a white-space rune. -/
def dropSpaceRuneRev (s : List Nat) : Option (List Nat) :=
  match spaceRunes.find? (fun r => r.reverse.isPrefixOf s) with
  | some r => some (s.drop r.length)
  | none => none

/-- Trailing white space removed from a reversed string (at most `fuel` runes of it). -/
def trimLeftSpaceRev : Nat → List Nat → List Nat
  | 0, s => s
  | fuel + 1, s =>
    match dropSpaceRuneRev s with
    | some t => trimLeftSpaceRev fuel t
    | none => s

/-- The function `strings.TrimSpace`: all leading and trailing white space, as
defined by Unicode, removed. -/
def TrimSpace (s : List Nat) : List Nat :=
  let t := trimLeftSpace s.length s
  (trimLeftSpaceRev t.length t.reverse).reverse

/-- The function `strings.Split(s, sep)` for a separator `sep` of one byte, as in both
calls of `ParseMarkerLine`. -/
def Split (sep : Nat) : List Nat → List (List Nat)
  | [] => [[]]
  | b :: rest =>
    if b = sep then [] :: Split sep rest
    else
      match Split sep rest with
      | [] => [[b]]
      | h :: t => (b :: h) :: t

/-- A line without its last byte when that byte is `'\r'`. -/
def dropCR (l : List Nat) : List Nat :=
  if l.getLast? = some 0x0D then l.dropLast else l

/-- The size of the buffer of `bufio.NewReader(in)`, for a reader `in` that is not
itself a `bufio.Reader`. -/
def bufSize : Nat := 4096

/-- The lines of `rd`, with `cur` the bytes of the current line read so far and `k` the
number of them that lie in the reader's buffer, the piece that the pending call of
`bufio.Reader.ReadLine` will return.
* A `'\n'` ends the line: the piece loses it and a `'\r'` right before it, `ReadLine`
  returns the glued pieces with a nil error.
* A byte that fills the buffer makes `bufio.Reader.ReadLine` return the piece with
  `isPrefix` set, and `ReadLine` asks for the next piece, which is empty so far; when
  that byte is `'\r'` it is put back and is the first byte of the next piece.
* At the end of the input a piece that is not empty is returned with a nil error, and
  the line is the last one; on an empty piece `bufio.Reader.ReadLine` returns `io.EOF`,
  `ReadLine` returns the bytes glued so far together with that error, and `Decode`
  (lines 122-124) leaves its loop without them. -/
def readLinesFrom : List Nat → List Nat → Nat → List (List Nat)
  | [], cur, k => if k = 0 then [] else [cur]
  | b :: rest, cur, k =>
    if b = 0x0A then dropCR cur :: readLinesFrom rest [] 0
    else if k + 1 = bufSize then readLinesFrom rest (cur ++ [b]) (if b = 0x0D then 1 else 0)
    else readLinesFrom rest (cur ++ [b]) (k + 1)

/-- The buffers that the successive calls `ReadLine(rd)` (yenc.go, lines 206-215)
return with a nil error, before the call that returns an error: the lines that the loop
of `Decode` gets to see.  The reader under `rd` gives `io.EOF` on a `Read` of its own,
after its last byte, as files and byte buffers do. -/
def ReadLines (input : List Nat) : List (List Nat) := readLinesFrom input [] 0

/-! ## ParseMarkerLine (yenc.go, lines 218-227) -/

/-- A Go `map[string]string` that is not `nil`: its keys with their values. -/
abbrev Marker := List (List Nat × List Nat)

/-- The assignment `marker[k] = v`. -/
def markerSet (m : Marker) (k v : List Nat) : Marker :=
  (k, v) :: m.filter (fun e => e.1 != k)

/-- The expression `m[k]` on a map that may be `nil`: the empty string when the key
is absent. -/
def markerGet (m : Option Marker) (k : List Nat) : List Nat :=
  match m with
  | none => []
  | some es =>
    match es.find? (fun e => e.1 == k) with
    | some e => e.2
    | none => []

/-- The loop over `entries` (lines 222-225); `none` is the run-time panic of
`parts[1]` on a token without `'='`. -/
def parseEntries : List (List Nat) → Marker → Option Marker
  | [], m => some m
  | e :: es, m =>
    match Split 0x3D e with
    | p0 :: p1 :: _ => parseEntries es (markerSet m p0 p1)
    | _ => none

/-- ParseMarkerLine; `none` when it panics. -/
def ParseMarkerLine (line : List Nat) (pfx : List Nat) : Option Marker :=
  parseEntries (Split 0x20 (TrimSpace (TrimPrefix line pfx))) []

/-! ## Decode (yenc.go, lines 107-204) -/

/-- The variables of `Decode`: the bytes written to `wr`, `outLength`, `isEscape`,
`header` and `footer` (`none` is a `nil` map). -/
structure DecState where
  wr : List Nat
  outLength : Nat
  isEscape : Bool
  header : Option Marker
  footer : Option Marker
  deriving DecidableEq, Repr

/-- The loop over the bytes of a payload line (lines 170-188). -/
def decodeBytes : List Nat → DecState → DecState
  | [], s => s
  | b :: bs, s =>
    if b = Escape then decodeBytes bs { s with isEscape := true }
    else
      let b1 := if s.isEscape then (b + 256 - Crit) % 256 else (b + 256 - Answer) % 256
      decodeBytes bs { s with
        isEscape := false, wr := s.wr ++ [b1],
        outLength := (s.outLength + 1) % 4294967296 }

/-- The loop over the lines (lines 120-189).  The list is what `ReadLine` returns
until `io.EOF`.  A `break` returns the current state: the error that lines 141, 158
and 162 build is assigned to the `err` that `buf, err := ReadLine(rd)` declares inside
the loop body, not to the result of `Decode`.  `none` is a panic in
`ParseMarkerLine`. -/
def decodeLoop : List (List Nat) → DecState → Option DecState
  | [], s => some s
  | line :: rest, s =>
    if s.header.isNone && !HasPrefix line Ybegin then decodeLoop rest s
    else if s.footer.isSome then decodeLoop rest s
    else if HasPrefix line Ybegin then
      if s.header.isSome then some s
      else
        match ParseMarkerLine line Ybegin with
        | none => none
        | some m => decodeLoop rest { s with header := some m }
    else if HasPrefix line Ypart then decodeLoop rest s
    else if HasPrefix line Yend then
      if s.footer.isSome then some s
      else if s.header.isNone then some s
      else
        match ParseMarkerLine line Yend with
        | none => none
        | some m => decodeLoop rest { s with footer := some m }
    else decodeLoop rest (decodeBytes line s)

/-- The errors that `Decode` returns, lines 195 and 200. -/
inductive DecodeError where
  | sizesDiffer (headerSize footerSize : List Nat)
  | readSizeDiffers (headerSize : List Nat) (outLength : Nat)
  deriving DecidableEq, Repr

/-- What a call of `Decode` that returns leaves behind: the bytes written to `out`
and the returned `err` (`none` is `nil`). -/
structure DecodeResult where
  out : List Nat
  err : Option DecodeError
  deriving DecidableEq, Repr

/-- The key `"size"`. -/
def sizeKey : List Nat := [0x73, 0x69, 0x7A, 0x65]

/-- The state in which `Decode` enters its loop (lines 114-118). -/
def initialState : DecState :=
  { wr := [], outLength := 0, isEscape := false, header := none, footer := none }

/-- The validation after the loop (lines 191-203). -/
def validate (s : DecState) : DecodeResult :=
  if markerGet s.header sizeKey ≠ markerGet s.footer sizeKey then
    { out := s.wr,
      err := some (.sizesDiffer (markerGet s.header sizeKey) (markerGet s.footer sizeKey)) }
  else if markerGet s.header sizeKey ≠ FormatUint s.outLength then
    { out := s.wr, err := some (.readSizeDiffers (markerGet s.header sizeKey) s.outLength) }
  else { out := s.wr, err := none }

/-- Decode: `none` when the call panics, else the bytes written and the error. -/
def Decode (input : List Nat) : Option DecodeResult :=
  match decodeLoop (ReadLines input) initialState with
  | none => none
  | some s => some (validate s)

/-! ## Notions used to state the properties -/

/-- The encoding of a sequence of raw bytes: the encodings of its bytes, in order. -/
def encodeBytes (raw : List Nat) : List Nat := raw.flatMap encodeByte

/-- The raw bytes `S[k*L .. min((k+1)*L, len S))`. -/
def chunk (L : Nat) (S : List Nat) (k : Nat) : List Nat := (S.drop (k * L)).take L

/-- The chunks numbered `0` to `len S / L`. -/
def chunks (L : Nat) (S : List Nat) : List (List Nat) :=
  (List.range (S.length / L + 1)).map (chunk L S)

/-- The payload lines of an input for a line length: its chunks, encoded. -/
def payloadLines (L : Nat) (S : List Nat) : List (List Nat) :=
  (chunks L S).map encodeBytes

/-- One unit of a payload line: a single byte that is not critical, or the escape
byte followed by one byte that is not critical. -/
def isUnit : List Nat → Bool
  | [c] => !IsCritical c
  | [e, d] => e == Escape && !IsCritical d
  | _ => false

/-- The text made of the given lines, each followed by CRLF. -/
def joinLines (lines : List (List Nat)) : List Nat := lines.flatMap (fun l => l ++ CRLF)

/-- The number that a string of decimal digits denotes. -/
def decimalValue (ds : List Nat) : Nat := ds.foldl (fun a c => 10 * a + (c - 0x30)) 0

/-- The value of one lowercase hexadecimal digit. -/
def hexDigitValue (c : Nat) : Nat := if c < 0x3A then c - 0x30 else c - 0x61 + 10

/-- The number that a string of lowercase hexadecimal digits denotes. -/
def hexValue (ds : List Nat) : Nat := ds.foldl (fun a c => 16 * a + hexDigitValue c) 0

/-- A byte that is a lowercase hexadecimal digit, `0`..`9` or `a`..`f`. -/
def isLowerHex (c : Nat) : Bool := (0x30 ≤ c && c ≤ 0x39) || (0x61 ≤ c && c ≤ 0x66)

/-- A byte that is a decimal digit. -/
def isDecimal (c : Nat) : Bool := 0x30 ≤ c && c ≤ 0x39

/-- A sequence of bytes: every element is below 256. -/
def isBytes (S : List Nat) : Prop := ∀ b ∈ S, b < 256

instance (S : List Nat) : Decidable (isBytes S) := by
  unfold isBytes; infer_instance

/-- The header line of `Encode` without its CRLF. -/
def headerText (lineLength : Int) (size : Nat) (filename : List Nat) : List Nat :=
  Ybegin ++ [0x20, 0x6C, 0x69, 0x6E, 0x65, 0x3D] ++ formatInt lineLength
    ++ [0x20, 0x73, 0x69, 0x7A, 0x65, 0x3D] ++ FormatUint size
    ++ [0x20, 0x6E, 0x61, 0x6D, 0x65, 0x3D] ++ filename

/-- The footer line of `Encode` without its CRLF. -/
def footerText (size : Nat) (crc : Nat) : List Nat :=
  Yend ++ [0x20, 0x73, 0x69, 0x7A, 0x65, 0x3D] ++ FormatUint size
    ++ [0x20, 0x63, 0x72, 0x63, 0x33, 0x32, 0x3D] ++ formatHex08 crc

/-- The bytes of the payload lines among the given lines, in order: the lines that
do not start with "=ypart" (the given lines start with neither "=ybegin" nor "=yend"). -/
def payloadOf (lines : List (List Nat)) : List Nat :=
  (lines.filter (fun l => !HasPrefix l Ypart)).flatten

/-- The payload lines of a stream, given by its lines: the lines after the first line
starting with "=ybegin", up to the next line starting with "=ybegin" or "=yend", that do
not start with "=ypart". -/
def streamPayload (lines : List (List Nat)) : List (List Nat) :=
  match lines.dropWhile (fun l => !HasPrefix l Ybegin) with
  | [] => []
  | _ :: rest =>
    (rest.takeWhile (fun l => !HasPrefix l Ybegin && !HasPrefix l Yend)).filter
      (fun l => !HasPrefix l Ypart)

/-- The bytes that the reverse transform writes for the given payload bytes, started
with no escape pending. -/
def decodePayload (payload : List Nat) : List Nat := (decodeBytes payload initialState).wr


/-! ## Formatting -/

theorem formatDigits_all (fuel n : Nat) (acc : List Nat)
    (hacc : ∀ c ∈ acc, isDecimal c = true) :
    ∀ c ∈ formatDigits fuel n acc, isDecimal c = true := by
  induction fuel generalizing n acc with
  | zero => simpa [formatDigits] using hacc
  | succ fuel ih =>
    unfold formatDigits
    split
    · intro c hc
      rcases List.mem_cons.1 hc with h | h
      · subst h; simp [isDecimal]; omega
      · exact hacc c h
    · apply ih
      intro c hc
      rcases List.mem_cons.1 hc with h | h
      · subst h; simp [isDecimal]; omega
      · exact hacc c h

theorem FormatUint_all (n : Nat) : ∀ c ∈ FormatUint n, isDecimal c = true :=
  formatDigits_all _ _ _ (by simp)

theorem formatDigits_ne_nil (fuel n : Nat) (acc : List Nat)
    (h : acc ≠ [] ∨ 0 < fuel) : formatDigits fuel n acc ≠ [] := by
  induction fuel generalizing n acc with
  | zero => simpa [formatDigits] using h
  | succ fuel ih =>
    unfold formatDigits
    split
    · simp
    · exact ih _ _ (Or.inl (by simp))

theorem FormatUint_ne_nil (n : Nat) : FormatUint n ≠ [] :=
  formatDigits_ne_nil _ _ _ (Or.inr (Nat.succ_pos n))

theorem formatDigits_value (fuel n : Nat) (acc : List Nat) (h : n < fuel) :
    (formatDigits fuel n acc).foldl (fun a c => 10 * a + (c - 0x30)) 0
      = acc.foldl (fun a c => 10 * a + (c - 0x30)) n := by
  induction fuel generalizing n acc with
  | zero => omega
  | succ fuel ih =>
    unfold formatDigits
    split
    · simp
    · rw [ih _ _ (by omega)]
      simp only [List.foldl_cons]
      congr 1
      omega

theorem decimalValue_FormatUint (n : Nat) : decimalValue (FormatUint n) = n := by
  simp [decimalValue, FormatUint, formatDigits_value]

theorem hexDigit_lower (d : Nat) (h : d < 16) : isLowerHex (hexDigit d) = true := by
  unfold hexDigit isLowerHex
  split <;> simp <;> omega

theorem hexDigitValue_hexDigit (d : Nat) (h : d < 16) : hexDigitValue (hexDigit d) = d := by
  unfold hexDigit hexDigitValue
  split <;> split <;> omega

theorem hexDigits_all (fuel n : Nat) (acc : List Nat)
    (hacc : ∀ c ∈ acc, isLowerHex c = true) :
    ∀ c ∈ hexDigits fuel n acc, isLowerHex c = true := by
  induction fuel generalizing n acc with
  | zero => simpa [hexDigits] using hacc
  | succ fuel ih =>
    unfold hexDigits
    split
    · intro c hc
      rcases List.mem_cons.1 hc with h | h
      · subst h; exact hexDigit_lower _ (by omega)
      · exact hacc c h
    · apply ih
      intro c hc
      rcases List.mem_cons.1 hc with h | h
      · subst h; exact hexDigit_lower _ (Nat.mod_lt _ (by norm_num))
      · exact hacc c h

theorem hexDigits_length_le (fuel n k : Nat) (acc : List Nat) (hk : 1 ≤ k) (h : n < 16 ^ k) :
    (hexDigits fuel n acc).length ≤ acc.length + k := by
  induction fuel generalizing n k acc with
  | zero => simp [hexDigits]
  | succ fuel ih =>
    unfold hexDigits
    split
    · simp; omega
    · rename_i hn
      have hk2 : 2 ≤ k := by
        by_contra hc
        have : k = 1 := by omega
        subst this
        simp at h
        omega
      have hdiv : n / 16 < 16 ^ (k - 1) := by
        rw [Nat.div_lt_iff_lt_mul (by norm_num)]
        calc n < 16 ^ k := h
          _ = 16 ^ (k - 1 + 1) := by congr 1; omega
          _ = 16 ^ (k - 1) * 16 := by rw [pow_succ]
      have := ih (n / 16) (k - 1) (hexDigit (n % 16) :: acc) (by omega) hdiv
      simp at this
      omega

theorem hexDigits_value (fuel n : Nat) (acc : List Nat) (h : n < fuel) :
    (hexDigits fuel n acc).foldl (fun a c => 16 * a + hexDigitValue c) 0
      = acc.foldl (fun a c => 16 * a + hexDigitValue c) n := by
  induction fuel generalizing n acc with
  | zero => omega
  | succ fuel ih =>
    unfold hexDigits
    split
    · simp [hexDigitValue_hexDigit _ (by assumption)]
    · rw [ih _ _ (by omega)]
      simp only [List.foldl_cons]
      rw [hexDigitValue_hexDigit _ (Nat.mod_lt _ (by norm_num))]
      congr 1
      omega

theorem formatHex08_all (n : Nat) : ∀ c ∈ formatHex08 n, isLowerHex c = true := by
  intro c hc
  simp only [formatHex08, List.mem_append, List.mem_replicate] at hc
  rcases hc with ⟨_, rfl⟩ | hc
  · decide
  · exact hexDigits_all _ _ _ (by simp) c hc

theorem formatHex08_length (n : Nat) (h : n < 4294967296) : (formatHex08 n).length = 8 := by
  have h1 := hexDigits_length_le (n + 1) n 8 [] (by norm_num) (by norm_num; exact h)
  simp only [formatHex08, List.length_append, List.length_replicate]
  simp at h1
  omega

theorem hexValue_formatHex08 (n : Nat) : hexValue (formatHex08 n) = n := by
  have hz : ∀ k (l : List Nat),
      (List.replicate k 0x30 ++ l).foldl (fun a c => 16 * a + hexDigitValue c) 0
        = l.foldl (fun a c => 16 * a + hexDigitValue c) 0 := by
    intro k l
    induction k with
    | zero => simp
    | succ k ih =>
      simp only [List.replicate_succ, List.cons_append, List.foldl_cons]
      simpa [hexDigitValue] using ih
  simp only [hexValue, formatHex08, hz]
  rw [hexDigits_value _ _ _ (by omega)]
  simp

/-! ## The checksum stays in 32 bits -/

theorem crcShift_lt (c : Nat) (h : c < 4294967296) : crcShift c < 4294967296 := by
  unfold crcShift
  split
  · exact Nat.xor_lt_two_pow (n := 32) (by omega) (by norm_num)
  · omega

theorem crcUpdate_lt (c b : Nat) (hc : c < 4294967296) (hb : b < 256) :
    crcUpdate c b < 4294967296 := by
  unfold crcUpdate
  have h0 : c ^^^ b < 4294967296 := Nat.xor_lt_two_pow (n := 32) hc (by omega)
  exact crcShift_lt _ (crcShift_lt _ (crcShift_lt _ (crcShift_lt _ (crcShift_lt _
    (crcShift_lt _ (crcShift_lt _ (crcShift_lt _ h0)))))))

theorem ChecksumIEEE_lt (S : List Nat) (hS : isBytes S) : ChecksumIEEE S < 4294967296 := by
  have hf : ∀ (l : List Nat) (c : Nat), (∀ b ∈ l, b < 256) → c < 4294967296 →
      l.foldl crcUpdate c < 4294967296 := by
    intro l
    induction l with
    | nil => intro c _ hc; simpa using hc
    | cons b l ih =>
      intro c hl hc
      simp only [List.foldl_cons]
      exact ih _ (fun x hx => hl x (List.mem_cons_of_mem _ hx))
        (crcUpdate_lt _ _ hc (hl b (List.mem_cons_self _ _)))
  unfold ChecksumIEEE
  exact Nat.xor_lt_two_pow (n := 32) (hf S _ hS (by norm_num)) (by norm_num)

set_option maxRecDepth 100000 in
/-- The check value of CRC-32/IEEE: the checksum of the nine bytes "123456789". -/
theorem ChecksumIEEE_check :
    ChecksumIEEE [0x31, 0x32, 0x33, 0x34, 0x35, 0x36, 0x37, 0x38, 0x39] = 0xCBF43926 := by
  decide

/-! ## The loops of Encode -/

theorem innerLoop_eq (n : Nat) (s : EncState) :
    innerLoop n s =
      { rd := s.rd.drop n, inBuf := s.inBuf ++ s.rd.take n,
        outBuf := s.outBuf ++ encodeBytes (s.rd.take n),
        eof := s.eof || decide (s.rd.length < n) } := by
  induction n generalizing s with
  | zero => cases s; simp [innerLoop, encodeBytes]
  | succ n ih =>
    obtain ⟨rd, inBuf, outBuf, eof⟩ := s
    cases rd with
    | nil => simp [innerLoop, encodeBytes]
    | cons b rest =>
      simp only [innerLoop]
      rw [ih]
      simp [encodeBytes, List.append_assoc]

theorem chunk_zero (L : Nat) (S : List Nat) : chunk L S 0 = S.take L := by
  simp [chunk]

theorem chunk_succ (L : Nat) (S : List Nat) (k : Nat) :
    chunk L S (k + 1) = chunk L (S.drop L) k := by
  simp only [chunk, List.drop_drop]
  congr 2
  ring

theorem chunks_short (L : Nat) (S : List Nat) (h : S.length < L) : chunks L S = [S] := by
  have h0 : S.length / L = 0 := Nat.div_eq_of_lt h
  simp [chunks, h0, chunk, List.range_succ, List.take_of_length_le (Nat.le_of_lt h)]

theorem chunks_long (L : Nat) (S : List Nat) (hL : 0 < L) (h : L ≤ S.length) :
    chunks L S = S.take L :: chunks L (S.drop L) := by
  have h0 : S.length / L = (S.length - L) / L + 1 := by
    rw [← Nat.sub_add_cancel h, Nat.add_div_right _ hL]
    simp
  simp only [chunks, h0, List.length_drop]
  rw [List.range_succ_eq_map]
  simp only [List.map_cons, List.map_map, chunk_zero]
  congr 1
  apply List.map_congr_left
  intro k _
  simp [chunk_succ]

theorem payloadLines_short (L : Nat) (S : List Nat) (h : S.length < L) :
    payloadLines L S = [encodeBytes S] := by
  simp [payloadLines, chunks_short L S h]

theorem payloadLines_long (L : Nat) (S : List Nat) (hL : 0 < L) (h : L ≤ S.length) :
    payloadLines L S = encodeBytes (S.take L) :: payloadLines L (S.drop L) := by
  simp [payloadLines, chunks_long L S hL h]

theorem payloadLines_length (L : Nat) (S : List Nat) :
    (payloadLines L S).length = S.length / L + 1 := by
  simp [payloadLines, chunks]

theorem chunks_flatten (L : Nat) (hL : 0 < L) (S : List Nat) : (chunks L S).flatten = S := by
  generalize hn : S.length = n
  induction n using Nat.strong_induction_on generalizing S with
  | _ n ih =>
    by_cases hlt : S.length < L
    · simp [chunks_short L S hlt]
    · have hge : L ≤ S.length := Nat.le_of_not_lt hlt
      rw [chunks_long L S hL hge, List.flatten_cons,
        ih (S.drop L).length (by simp only [List.length_drop]; omega) _ rfl]
      exact List.take_append_drop L S

theorem encodeByte_mod (b : Nat) : encodeByte (b % 256) = encodeByte b := by
  simp [encodeByte, Nat.add_mod]

set_option maxRecDepth 100000 in
theorem isUnit_encodeByte (b : Nat) : isUnit (encodeByte b) = true := by
  rw [← encodeByte_mod]
  have h : ∀ r < 256, isUnit (encodeByte r) = true := by decide
  exact h _ (Nat.mod_lt _ (by norm_num))

theorem outerLoop_eq (lineLength : Int) (hL : 1 ≤ lineLength) (fuel : Nat) (s : EncState)
    (hfuel : s.rd.length / lineLength.toNat < fuel) (heof : s.eof = false) :
    outerLoop lineLength fuel s =
      some { rd := [], inBuf := s.inBuf ++ s.rd,
             outBuf := s.outBuf ++ joinLines (payloadLines lineLength.toNat s.rd),
             eof := true } := by
  have hn : 0 < lineLength.toNat := by omega
  induction fuel generalizing s with
  | zero => exact absurd hfuel (Nat.not_lt_zero _)
  | succ fuel ih =>
    obtain ⟨rd, inBuf, outBuf, eof⟩ := s
    simp only at heof hfuel
    subst heof
    unfold outerLoop
    simp only [innerLoop_eq, Bool.false_or]
    by_cases hlt : rd.length < lineLength.toNat
    · simp [hlt, payloadLines_short _ _ hlt, joinLines, List.take_of_length_le (Nat.le_of_lt hlt),
        List.drop_of_length_le (Nat.le_of_lt hlt)]
    · have hge : lineLength.toNat ≤ rd.length := Nat.le_of_not_lt hlt
      simp only [hlt, decide_False, Bool.false_eq_true, if_false]
      rw [ih]
      · simp [payloadLines_long _ _ hn hge, joinLines, List.append_assoc]
      · simp only [List.length_drop]
        have : rd.length / lineLength.toNat
            = (rd.length - lineLength.toNat) / lineLength.toNat + 1 := by
          rw [← Nat.sub_add_cancel hge, Nat.add_div_right _ hn]
          simp
        omega
      · rfl

/-- With a positive line length and enough fuel, `Encode` writes the header line, the
payload lines and the footer line. -/
theorem Encode_eq (fuel : Nat) (S : List Nat) (lineLength : Int) (filename : List Nat)
    (hL : 1 ≤ lineLength) (hfuel : S.length / lineLength.toNat < fuel) :
    Encode fuel S lineLength filename =
      some (headerLine lineLength S.length filename
        ++ joinLines (payloadLines lineLength.toNat S)
        ++ footerLine S.length (ChecksumIEEE S)) := by
  unfold Encode
  rw [outerLoop_eq lineLength hL fuel _ hfuel rfl]
  simp

/-! ## The claims about Encode -/

/-- C2: for a byte sequence S, a line length L >= 1 and a filename N, Encode (given
enough fuel to finish) writes, in this order and nothing else, the line
"=ybegin line=<L> size=<len S> name=<N>" CRLF, the payload lines, and the line
"=yend size=<len S> crc32=<h>" CRLF; both sizes are the decimal length of S, and h is
the IEEE CRC32 of S as exactly 8 lowercase hexadecimal digits. -/
theorem C2_encode_layout (fuel : Nat) (S : List Nat) (lineLength : Int) (filename : List Nat)
    (hS : isBytes S) (hL : 1 ≤ lineLength) (hfuel : S.length / lineLength.toNat < fuel) :
    Encode fuel S lineLength filename =
      some (([0x3D, 0x79, 0x62, 0x65, 0x67, 0x69, 0x6E] ++ [0x20, 0x6C, 0x69, 0x6E, 0x65, 0x3D]
          ++ FormatUint lineLength.toNat ++ [0x20, 0x73, 0x69, 0x7A, 0x65, 0x3D]
          ++ FormatUint S.length ++ [0x20, 0x6E, 0x61, 0x6D, 0x65, 0x3D] ++ filename
          ++ [0x0D, 0x0A])
        ++ joinLines (payloadLines lineLength.toNat S)
        ++ ([0x3D, 0x79, 0x65, 0x6E, 0x64] ++ [0x20, 0x73, 0x69, 0x7A, 0x65, 0x3D]
          ++ FormatUint S.length ++ [0x20, 0x63, 0x72, 0x63, 0x33, 0x32, 0x3D]
          ++ formatHex08 (ChecksumIEEE S) ++ [0x0D, 0x0A]))
    ∧ decimalValue (FormatUint lineLength.toNat) = lineLength.toNat
    ∧ (∀ c ∈ FormatUint S.length, isDecimal c = true)
    ∧ decimalValue (FormatUint S.length) = S.length
    ∧ (formatHex08 (ChecksumIEEE S)).length = 8
    ∧ (∀ c ∈ formatHex08 (ChecksumIEEE S), isLowerHex c = true)
    ∧ hexValue (formatHex08 (ChecksumIEEE S)) = ChecksumIEEE S := by
  refine ⟨?_, decimalValue_FormatUint _, FormatUint_all _, decimalValue_FormatUint _,
    formatHex08_length _ (ChecksumIEEE_lt S hS), formatHex08_all _, hexValue_formatHex08 _⟩
  rw [Encode_eq fuel S lineLength filename hL hfuel]
  have hfmt : formatInt lineLength = FormatUint lineLength.toNat := by
    unfold formatInt
    rw [if_neg (by omega)]
  simp [headerLine, footerLine, hfmt, Ybegin, Yend, CRLF]

theorem C2_encode_layout_witness :
    (isBytes [0xD6, 0x41] ∧ (1 : Int) ≤ 1 ∧ [0xD6, 0x41].length / (1 : Int).toNat < 3)
    ∧ (Encode 3 [0xD6, 0x41] 1 [0x61] =
      some (([0x3D, 0x79, 0x62, 0x65, 0x67, 0x69, 0x6E] ++ [0x20, 0x6C, 0x69, 0x6E, 0x65, 0x3D]
          ++ FormatUint (1 : Int).toNat ++ [0x20, 0x73, 0x69, 0x7A, 0x65, 0x3D]
          ++ FormatUint [0xD6, 0x41].length ++ [0x20, 0x6E, 0x61, 0x6D, 0x65, 0x3D] ++ [0x61]
          ++ [0x0D, 0x0A])
        ++ joinLines (payloadLines (1 : Int).toNat [0xD6, 0x41])
        ++ ([0x3D, 0x79, 0x65, 0x6E, 0x64] ++ [0x20, 0x73, 0x69, 0x7A, 0x65, 0x3D]
          ++ FormatUint [0xD6, 0x41].length ++ [0x20, 0x63, 0x72, 0x63, 0x33, 0x32, 0x3D]
          ++ formatHex08 (ChecksumIEEE [0xD6, 0x41]) ++ [0x0D, 0x0A]))
    ∧ decimalValue (FormatUint (1 : Int).toNat) = (1 : Int).toNat
    ∧ (∀ c ∈ FormatUint [0xD6, 0x41].length, isDecimal c = true)
    ∧ decimalValue (FormatUint [0xD6, 0x41].length) = [0xD6, 0x41].length
    ∧ (formatHex08 (ChecksumIEEE [0xD6, 0x41])).length = 8
    ∧ (∀ c ∈ formatHex08 (ChecksumIEEE [0xD6, 0x41]), isLowerHex c = true)
    ∧ hexValue (formatHex08 (ChecksumIEEE [0xD6, 0x41])) = ChecksumIEEE [0xD6, 0x41]) :=
  ⟨⟨by decide, by decide, by decide⟩,
    C2_encode_layout 3 [0xD6, 0x41] 1 [0x61] (by decide) (by decide) (by decide)⟩

/-- C3 (the code at the input of the claim): the raw byte 0xD6 has the candidate
(0xD6 + 42) mod 256 = 0x00, which is critical; Encode with line length 128 and filename
"a" writes for it the payload bytes 0x3D 0x16 CRLF, the second byte being
(0xD6 + 64) mod 256 and not (candidate + 64) mod 256 = 0x40. -/
theorem C3_escaped_byte_is_raw_plus_64 :
    (0xD6 + Answer) % 256 = 0x00
    ∧ ((0xD6 + Answer) % 256 + Crit) % 256 = 0x40
    ∧ encodeByte 0xD6 = [0x3D, 0x16]
    ∧ Encode 1 [0xD6] 128 [0x61] =
      some ([0x3D, 0x79, 0x62, 0x65, 0x67, 0x69, 0x6E, 0x20, 0x6C, 0x69, 0x6E, 0x65, 0x3D, 0x31,
          0x32, 0x38, 0x20, 0x73, 0x69, 0x7A, 0x65, 0x3D, 0x31, 0x20, 0x6E, 0x61, 0x6D, 0x65,
          0x3D, 0x61, 0x0D, 0x0A]
        ++ [0x3D, 0x16, 0x0D, 0x0A]
        ++ [0x3D, 0x79, 0x65, 0x6E, 0x64, 0x20, 0x73, 0x69, 0x7A, 0x65, 0x3D, 0x31, 0x20, 0x63,
            0x72, 0x63, 0x33, 0x32, 0x3D, 0x62, 0x64, 0x62, 0x32, 0x39, 0x38, 0x36, 0x63, 0x0D,
            0x0A]) := by
  decide

/-- C5: for every input S and line length L >= 1, the payload that Encode writes is
made of lines, each a sequence of units followed by CRLF, where a unit is either one
byte that is none of 0x00, 0x0A, 0x0D, 0x3D, or the byte 0x3D followed by one such
byte; so 0x0D and 0x0A occur only in the CRLF that ends a line, 0x00 never occurs, and
every 0x3D starts a two-byte unit that lies within one line. -/
theorem C5_escaping_complete (fuel : Nat) (S : List Nat) (lineLength : Int)
    (filename : List Nat) (hL : 1 ≤ lineLength) (hfuel : S.length / lineLength.toNat < fuel) :
    Encode fuel S lineLength filename =
      some (headerLine lineLength S.length filename
        ++ joinLines (((chunks lineLength.toNat S).map (List.map encodeByte)).map List.flatten)
        ++ footerLine S.length (ChecksumIEEE S))
    ∧ (∀ units ∈ (chunks lineLength.toNat S).map (List.map encodeByte),
        ∀ u ∈ units, isUnit u = true)
    ∧ (∀ units ∈ (chunks lineLength.toNat S).map (List.map encodeByte),
        ∀ b ∈ units.flatten, b ≠ 0x00 ∧ b ≠ 0x0A ∧ b ≠ 0x0D) := by
  have hu : ∀ units ∈ (chunks lineLength.toNat S).map (List.map encodeByte),
      ∀ u ∈ units, isUnit u = true := by
    intro units hunits u hmem
    simp only [List.mem_map] at hunits
    obtain ⟨c, _, rfl⟩ := hunits
    simp only [List.mem_map] at hmem
    obtain ⟨b, _, rfl⟩ := hmem
    exact isUnit_encodeByte b
  refine ⟨?_, hu, ?_⟩
  · rw [Encode_eq fuel S lineLength filename hL hfuel]
    have he : ∀ x : List Nat, encodeBytes x = (List.map encodeByte x).flatten := by
      intro x
      simp [encodeBytes, List.flatMap_def]
    have hf : encodeBytes = fun x => (List.map encodeByte x).flatten := funext he
    simp [payloadLines, Function.comp_def, hf]
  · intro units hunits b hb
    simp only [List.mem_flatten] at hb
    obtain ⟨u, hmem, hbu⟩ := hb
    have h1 := hu units hunits u hmem
    match u, h1, hbu with
    | [c], h1, hbu =>
      simp only [List.mem_singleton] at hbu
      subst hbu
      simp [isUnit, IsCritical] at h1
      omega
    | [e, d], h1, hbu =>
      simp [isUnit, IsCritical, Escape] at h1
      simp only [List.mem_cons, List.mem_singleton, List.not_mem_nil, or_false] at hbu
      rcases hbu with rfl | rfl <;> omega

theorem C5_escaping_complete_witness :
    ((1 : Int) ≤ 2 ∧ [0xD6, 0x41, 0x13].length / (2 : Int).toNat < 3)
    ∧ (Encode 3 [0xD6, 0x41, 0x13] 2 [0x61] =
      some (headerLine 2 [0xD6, 0x41, 0x13].length [0x61]
        ++ joinLines (((chunks (2 : Int).toNat [0xD6, 0x41, 0x13]).map
            (List.map encodeByte)).map List.flatten)
        ++ footerLine [0xD6, 0x41, 0x13].length (ChecksumIEEE [0xD6, 0x41, 0x13]))
    ∧ (∀ units ∈ (chunks (2 : Int).toNat [0xD6, 0x41, 0x13]).map (List.map encodeByte),
        ∀ u ∈ units, isUnit u = true)
    ∧ (∀ units ∈ (chunks (2 : Int).toNat [0xD6, 0x41, 0x13]).map (List.map encodeByte),
        ∀ b ∈ units.flatten, b ≠ 0x00 ∧ b ≠ 0x0A ∧ b ≠ 0x0D)) :=
  ⟨⟨by decide, by decide⟩,
    C5_escaping_complete 3 [0xD6, 0x41, 0x13] 2 [0x61] (by decide) (by decide)⟩

/-- C6 (the code at inputs of the claim): for the empty input Encode writes one
payload line, the empty line CRLF, between the header and the footer, where
ceil(0 / 128) = 0; for the two bytes "AB" with line length 2 it writes the two payload
lines "kl" CRLF and CRLF, where ceil(2 / 2) = 1. -/
theorem C6_extra_empty_payload_line :
    Encode 1 [] 128 [0x61] =
      some ([0x3D, 0x79, 0x62, 0x65, 0x67, 0x69, 0x6E, 0x20, 0x6C, 0x69, 0x6E, 0x65, 0x3D, 0x31,
          0x32, 0x38, 0x20, 0x73, 0x69, 0x7A, 0x65, 0x3D, 0x30, 0x20, 0x6E, 0x61, 0x6D, 0x65,
          0x3D, 0x61, 0x0D, 0x0A]
        ++ [0x0D, 0x0A]
        ++ [0x3D, 0x79, 0x65, 0x6E, 0x64, 0x20, 0x73, 0x69, 0x7A, 0x65, 0x3D, 0x30, 0x20, 0x63,
            0x72, 0x63, 0x33, 0x32, 0x3D, 0x30, 0x30, 0x30, 0x30, 0x30, 0x30, 0x30, 0x30, 0x0D,
            0x0A])
    ∧ Encode 2 [0x41, 0x42] 2 [0x61] =
      some ([0x3D, 0x79, 0x62, 0x65, 0x67, 0x69, 0x6E, 0x20, 0x6C, 0x69, 0x6E, 0x65, 0x3D, 0x32,
          0x20, 0x73, 0x69, 0x7A, 0x65, 0x3D, 0x32, 0x20, 0x6E, 0x61, 0x6D, 0x65, 0x3D, 0x61,
          0x0D, 0x0A]
        ++ ([0x6B, 0x6C, 0x0D, 0x0A] ++ [0x0D, 0x0A])
        ++ [0x3D, 0x79, 0x65, 0x6E, 0x64, 0x20, 0x73, 0x69, 0x7A, 0x65, 0x3D, 0x32, 0x20, 0x63,
            0x72, 0x63, 0x33, 0x32, 0x3D, 0x33, 0x30, 0x36, 0x39, 0x34, 0x63, 0x30, 0x37, 0x0D,
            0x0A]) := by
  decide

/-- C7: for every input S and line length L >= 1, the payload that Encode writes is
its payload lines, each followed by CRLF, and the k-th payload line is the
concatenation of the encodings of the raw bytes S[k*L .. min((k+1)*L, len S)): a line
carries at most L raw bytes, each raw byte is encoded whole within one line, and the
chunks, in order, make up S. -/
theorem C7_lines_wrap_raw_bytes (fuel : Nat) (S : List Nat) (lineLength : Int)
    (filename : List Nat) (hL : 1 ≤ lineLength) (hfuel : S.length / lineLength.toNat < fuel) :
    Encode fuel S lineLength filename =
      some (headerLine lineLength S.length filename
        ++ joinLines (payloadLines lineLength.toNat S)
        ++ footerLine S.length (ChecksumIEEE S))
    ∧ (∀ k, k < (payloadLines lineLength.toNat S).length →
        (payloadLines lineLength.toNat S)[k]? =
          some (((S.drop (k * lineLength.toNat)).take lineLength.toNat).flatMap encodeByte)
        ∧ ((S.drop (k * lineLength.toNat)).take lineLength.toNat).length
            = min ((k + 1) * lineLength.toNat) S.length - k * lineLength.toNat
        ∧ ((S.drop (k * lineLength.toNat)).take lineLength.toNat).length ≤ lineLength.toNat)
    ∧ ((List.range (payloadLines lineLength.toNat S).length).map
        (fun k => (S.drop (k * lineLength.toNat)).take lineLength.toNat)).flatten = S := by
  have hlen := payloadLines_length lineLength.toNat S
  refine ⟨Encode_eq fuel S lineLength filename hL hfuel, ?_, ?_⟩
  · intro k hk
    rw [hlen] at hk
    refine ⟨?_, ?_, ?_⟩
    · simp [payloadLines, chunks, chunk, encodeBytes, List.getElem?_range hk]
    · simp only [List.length_take, List.length_drop]
      have : (k + 1) * lineLength.toNat = k * lineLength.toNat + lineLength.toNat := by ring
      omega
    · simp only [List.length_take]
      omega
  · rw [hlen]
    have := chunks_flatten lineLength.toNat (by omega) S
    simpa [chunks, chunk, Function.comp_def] using this

theorem C7_lines_wrap_raw_bytes_witness :
    ((1 : Int) ≤ 2 ∧ [0xD6, 0x41, 0x13].length / (2 : Int).toNat < 3)
    ∧ (Encode 3 [0xD6, 0x41, 0x13] 2 [0x61] =
      some (headerLine 2 [0xD6, 0x41, 0x13].length [0x61]
        ++ joinLines (payloadLines (2 : Int).toNat [0xD6, 0x41, 0x13])
        ++ footerLine [0xD6, 0x41, 0x13].length (ChecksumIEEE [0xD6, 0x41, 0x13]))
    ∧ (∀ k, k < (payloadLines (2 : Int).toNat [0xD6, 0x41, 0x13]).length →
        (payloadLines (2 : Int).toNat [0xD6, 0x41, 0x13])[k]? =
          some ((([0xD6, 0x41, 0x13].drop (k * (2 : Int).toNat)).take
            (2 : Int).toNat).flatMap encodeByte)
        ∧ (([0xD6, 0x41, 0x13].drop (k * (2 : Int).toNat)).take (2 : Int).toNat).length
            = min ((k + 1) * (2 : Int).toNat) [0xD6, 0x41, 0x13].length
              - k * (2 : Int).toNat
        ∧ (([0xD6, 0x41, 0x13].drop (k * (2 : Int).toNat)).take (2 : Int).toNat).length
            ≤ (2 : Int).toNat)
    ∧ ((List.range (payloadLines (2 : Int).toNat [0xD6, 0x41, 0x13]).length).map
        (fun k => ([0xD6, 0x41, 0x13].drop (k * (2 : Int).toNat)).take
          (2 : Int).toNat)).flatten = [0xD6, 0x41, 0x13]) :=
  ⟨⟨by decide, by decide⟩,
    C7_lines_wrap_raw_bytes 3 [0xD6, 0x41, 0x13] 2 [0x61] (by decide) (by decide)⟩

/-! ## The claims about Decode, evaluated -/

/-- C4 (the code at an input of the claim): on the stream
"=ybegin line=128 size=1 name=a" CRLF "=@" CRLF "=yend size=1 crc32=bdb2986c" CRLF
the payload byte 0x40 comes with an escape pending, and Decode writes for it
(0x40 - 64) mod 256 = 0x00 and returns no error, where the claim has
(0x40 - 64 - 42) mod 256 = 0xD6. -/
theorem C4_escaped_byte_is_minus_64 :
    Decode [0x3D, 0x79, 0x62, 0x65, 0x67, 0x69, 0x6E, 0x20, 0x6C, 0x69, 0x6E, 0x65, 0x3D, 0x31,
      0x32, 0x38, 0x20, 0x73, 0x69, 0x7A, 0x65, 0x3D, 0x31, 0x20, 0x6E, 0x61, 0x6D, 0x65, 0x3D,
      0x61, 0x0D, 0x0A, 0x3D, 0x40, 0x0D, 0x0A, 0x3D, 0x79, 0x65, 0x6E, 0x64, 0x20, 0x73, 0x69,
      0x7A, 0x65, 0x3D, 0x31, 0x20, 0x63, 0x72, 0x63, 0x33, 0x32, 0x3D, 0x62, 0x64, 0x62, 0x32,
      0x39, 0x38, 0x36, 0x63, 0x0D, 0x0A]
      = some { out := [0x00], err := none }
    ∧ (0x40 + 256 - Crit) % 256 = 0x00
    ∧ (0x40 + 256 + 256 - Crit - Answer) % 256 = 0xD6 := by
  decide

/-- C8 (the code at an input of the claim): on the stream
"=ybegin line=128 size=1 name=a" CRLF "k" CRLF "=yend size=1 crc32=d3d99e8b" CRLF
"=yend size=1 crc32=d3d99e8b" CRLF, which has a second "=yend" line after a header
line and a first "=yend" line, Decode writes the byte 0x41 and returns no error. -/
theorem C8_second_footer_is_skipped :
    Decode [0x3D, 0x79, 0x62, 0x65, 0x67, 0x69, 0x6E, 0x20, 0x6C, 0x69, 0x6E, 0x65, 0x3D, 0x31,
      0x32, 0x38, 0x20, 0x73, 0x69, 0x7A, 0x65, 0x3D, 0x31, 0x20, 0x6E, 0x61, 0x6D, 0x65, 0x3D,
      0x61, 0x0D, 0x0A, 0x6B, 0x0D, 0x0A, 0x3D, 0x79, 0x65, 0x6E, 0x64, 0x20, 0x73, 0x69, 0x7A,
      0x65, 0x3D, 0x31, 0x20, 0x63, 0x72, 0x63, 0x33, 0x32, 0x3D, 0x64, 0x33, 0x64, 0x39, 0x39,
      0x65, 0x38, 0x62, 0x0D, 0x0A, 0x3D, 0x79, 0x65, 0x6E, 0x64, 0x20, 0x73, 0x69, 0x7A, 0x65,
      0x3D, 0x31, 0x20, 0x63, 0x72, 0x63, 0x33, 0x32, 0x3D, 0x64, 0x33, 0x64, 0x39, 0x39, 0x65,
      0x38, 0x62, 0x0D, 0x0A]
      = some { out := [0x41], err := none } := by
  decide

/-- C9 (the code at inputs of the claim): on the stream
"=yend size=1 crc32=d3d99e8b" CRLF "=ybegin line=128 size=1 name=a" CRLF "k" CRLF
"=yend size=1 crc32=d3d99e8b" CRLF, which has a "=yend" line before any "=ybegin"
line, Decode writes the byte 0x41 and returns no error. -/
theorem C9_early_footer_is_skipped :
    Decode [0x3D, 0x79, 0x65, 0x6E, 0x64, 0x20, 0x73, 0x69, 0x7A, 0x65, 0x3D, 0x31, 0x20, 0x63,
      0x72, 0x63, 0x33, 0x32, 0x3D, 0x64, 0x33, 0x64, 0x39, 0x39, 0x65, 0x38, 0x62, 0x0D, 0x0A,
      0x3D, 0x79, 0x62, 0x65, 0x67, 0x69, 0x6E, 0x20, 0x6C, 0x69, 0x6E, 0x65, 0x3D, 0x31, 0x32,
      0x38, 0x20, 0x73, 0x69, 0x7A, 0x65, 0x3D, 0x31, 0x20, 0x6E, 0x61, 0x6D, 0x65, 0x3D, 0x61,
      0x0D, 0x0A, 0x6B, 0x0D, 0x0A, 0x3D, 0x79, 0x65, 0x6E, 0x64, 0x20, 0x73, 0x69, 0x7A, 0x65,
      0x3D, 0x31, 0x20, 0x63, 0x72, 0x63, 0x33, 0x32, 0x3D, 0x64, 0x33, 0x64, 0x39, 0x39, 0x65,
      0x38, 0x62, 0x0D, 0x0A]
      = some { out := [0x41], err := none } := by
  decide

/-! ## The loops of Decode -/

theorem decodeBytes_append (a b : List Nat) (s : DecState) :
    decodeBytes (a ++ b) s = decodeBytes b (decodeBytes a s) := by
  induction a generalizing s with
  | nil => rfl
  | cons x a ih =>
    simp only [List.cons_append, decodeBytes]
    split <;> exact ih _

theorem decodeBytes_header (l : List Nat) (s : DecState) :
    (decodeBytes l s).header = s.header := by
  induction l generalizing s with
  | nil => rfl
  | cons x l ih =>
    simp only [decodeBytes]
    split <;> rw [ih]

theorem decodeBytes_footer (l : List Nat) (s : DecState) :
    (decodeBytes l s).footer = s.footer := by
  induction l generalizing s with
  | nil => rfl
  | cons x l ih =>
    simp only [decodeBytes]
    split <;> rw [ih]

theorem decodeBytes_with_header (l : List Nat) (s : DecState) (h : Option Marker) :
    decodeBytes l { s with header := h } = { decodeBytes l s with header := h } := by
  induction l generalizing s with
  | nil => rfl
  | cons x l ih =>
    simp only [decodeBytes]
    split
    · exact ih { s with isEscape := true }
    · exact ih { s with
        isEscape := false,
        wr := s.wr ++ [if s.isEscape then (x + 256 - Crit) % 256 else (x + 256 - Answer) % 256],
        outLength := (s.outLength + 1) % 4294967296 }

theorem decodeLoop_before_header (pre rest : List (List Nat)) (s : DecState)
    (hs : s.header = none) (hpre : ∀ l ∈ pre, HasPrefix l Ybegin = false) :
    decodeLoop (pre ++ rest) s = decodeLoop rest s := by
  induction pre with
  | nil => rfl
  | cons l pre ih =>
    have hl := hpre l (List.mem_cons_self _ _)
    simp only [List.cons_append, decodeLoop, hs, hl]
    simpa using ih (fun x hx => hpre x (List.mem_cons_of_mem _ hx))

theorem decodeLoop_header (line : List Nat) (rest : List (List Nat)) (s : DecState)
    (m : Marker) (hs : s.header = none) (hf : s.footer = none)
    (hline : HasPrefix line Ybegin = true) (hm : ParseMarkerLine line Ybegin = some m) :
    decodeLoop (line :: rest) s = decodeLoop rest { s with header := some m } := by
  simp [decodeLoop, hs, hf, hline, hm]

theorem decodeLoop_payload (mid rest : List (List Nat)) (s : DecState)
    (hs : s.header.isSome = true) (hf : s.footer = none)
    (hmid : ∀ l ∈ mid, HasPrefix l Ybegin = false ∧ HasPrefix l Yend = false) :
    decodeLoop (mid ++ rest) s = decodeLoop rest (decodeBytes (payloadOf mid) s) := by
  induction mid generalizing s with
  | nil => simp [payloadOf, decodeBytes]
  | cons l mid ih =>
    obtain ⟨hb, he⟩ := hmid l (List.mem_cons_self _ _)
    have hmid2 : ∀ x ∈ mid, HasPrefix x Ybegin = false ∧ HasPrefix x Yend = false :=
      fun x hx => hmid x (List.mem_cons_of_mem _ hx)
    have hnone : s.header.isNone = false := by
      cases h : s.header with
      | none => simp [h] at hs
      | some _ => rfl
    by_cases hp : HasPrefix l Ypart = true
    · simp only [List.cons_append, decodeLoop, hnone, hf, hb, hp]
      simp only [payloadOf, List.filter_cons, hp]
      simpa [payloadOf] using ih s hs hf hmid2
    · have hp2 : HasPrefix l Ypart = false := by simpa using hp
      simp only [List.cons_append, decodeLoop, hnone, hf, hb, hp2, he]
      simp only [payloadOf, List.filter_cons, hp2]
      have := ih (decodeBytes l s) (by rw [decodeBytes_header]; exact hs)
        (by rw [decodeBytes_footer]; exact hf) hmid2
      simpa [payloadOf, decodeBytes_append] using this

theorem decodeLoop_second_header (line : List Nat) (rest : List (List Nat)) (s : DecState)
    (hs : s.header.isSome = true) (hf : s.footer = none)
    (hline : HasPrefix line Ybegin = true) :
    decodeLoop (line :: rest) s = some s := by
  simp [decodeLoop, hs, hf, hline]

theorem validate_no_footer (s : DecState) (hf : s.footer = none) :
    ∃ e, validate s = { out := s.wr, err := some e } := by
  have hfoot : markerGet s.footer sizeKey = [] := by rw [hf]; rfl
  unfold validate
  rw [hfoot]
  by_cases h : markerGet s.header sizeKey = []
  · refine ⟨.readSizeDiffers (markerGet s.header sizeKey) s.outLength, ?_⟩
    rw [if_neg (by simp [h]), if_pos (by rw [h]; exact fun h2 => FormatUint_ne_nil _ h2.symm)]
  · exact ⟨.sizesDiffer (markerGet s.header sizeKey) [], by rw [if_pos h]⟩

/-- C10: when the lines of the input are lines that do not start with "=ybegin", then
a line starting with "=ybegin" that ParseMarkerLine parses, then lines starting with
neither "=ybegin" nor "=yend", then a second line starting with "=ybegin", Decode
returns an error and has written exactly the decoding of the payload lines between
the two header lines, whatever follows the second header line. -/
theorem C10_duplicate_header (input : List Nat) (pre mid rest : List (List Nat))
    (h1 h2 : List Nat) (m : Marker)
    (hlines : ReadLines input = pre ++ h1 :: (mid ++ h2 :: rest))
    (hpre : ∀ l ∈ pre, HasPrefix l Ybegin = false)
    (hh1 : HasPrefix h1 Ybegin = true) (hm : ParseMarkerLine h1 Ybegin = some m)
    (hmid : ∀ l ∈ mid, HasPrefix l Ybegin = false ∧ HasPrefix l Yend = false)
    (hh2 : HasPrefix h2 Ybegin = true) :
    ∃ e, Decode input = some { out := decodePayload (payloadOf mid), err := some e } := by
  unfold Decode
  rw [hlines, decodeLoop_before_header pre _ initialState rfl hpre,
    decodeLoop_header h1 _ initialState m rfl rfl hh1 hm,
    decodeLoop_payload mid _ { initialState with header := some m } rfl rfl hmid,
    decodeLoop_second_header h2 rest _ (by rw [decodeBytes_header]; rfl)
      (by rw [decodeBytes_footer]; rfl) hh2]
  obtain ⟨e, he⟩ := validate_no_footer
    (decodeBytes (payloadOf mid) { initialState with header := some m })
    (by rw [decodeBytes_footer]; rfl)
  refine ⟨e, ?_⟩
  simp only [he]
  congr 2
  rw [decodeBytes_with_header]
  rfl

theorem C10_duplicate_header_witness :
    (ReadLines [0x78, 0x0D, 0x0A, 0x3D, 0x79, 0x62, 0x65, 0x67, 0x69, 0x6E, 0x20, 0x73, 0x69,
        0x7A, 0x65, 0x3D, 0x31, 0x0D, 0x0A, 0x6B, 0x0D, 0x0A, 0x3D, 0x79, 0x70, 0x61, 0x72,
        0x74, 0x0D, 0x0A, 0x3D, 0x79, 0x62, 0x65, 0x67, 0x69, 0x6E, 0x0D, 0x0A, 0x6C, 0x0D, 0x0A]
      = [[0x78]] ++ [0x3D, 0x79, 0x62, 0x65, 0x67, 0x69, 0x6E, 0x20, 0x73, 0x69, 0x7A, 0x65,
          0x3D, 0x31]
        :: ([[0x6B], [0x3D, 0x79, 0x70, 0x61, 0x72, 0x74]]
          ++ [0x3D, 0x79, 0x62, 0x65, 0x67, 0x69, 0x6E] :: [[0x6C]])
    ∧ (∀ l ∈ [[0x78]], HasPrefix l Ybegin = false)
    ∧ HasPrefix [0x3D, 0x79, 0x62, 0x65, 0x67, 0x69, 0x6E, 0x20, 0x73, 0x69, 0x7A, 0x65, 0x3D,
        0x31] Ybegin = true
    ∧ ParseMarkerLine [0x3D, 0x79, 0x62, 0x65, 0x67, 0x69, 0x6E, 0x20, 0x73, 0x69, 0x7A, 0x65,
        0x3D, 0x31] Ybegin = some [([0x73, 0x69, 0x7A, 0x65], [0x31])]
    ∧ (∀ l ∈ [[0x6B], [0x3D, 0x79, 0x70, 0x61, 0x72, 0x74]],
        HasPrefix l Ybegin = false ∧ HasPrefix l Yend = false)
    ∧ HasPrefix [0x3D, 0x79, 0x62, 0x65, 0x67, 0x69, 0x6E] Ybegin = true)
    ∧ ∃ e, Decode [0x78, 0x0D, 0x0A, 0x3D, 0x79, 0x62, 0x65, 0x67, 0x69, 0x6E, 0x20, 0x73, 0x69,
        0x7A, 0x65, 0x3D, 0x31, 0x0D, 0x0A, 0x6B, 0x0D, 0x0A, 0x3D, 0x79, 0x70, 0x61, 0x72,
        0x74, 0x0D, 0x0A, 0x3D, 0x79, 0x62, 0x65, 0x67, 0x69, 0x6E, 0x0D, 0x0A, 0x6C, 0x0D, 0x0A]
      = some { out := decodePayload (payloadOf [[0x6B], [0x3D, 0x79, 0x70, 0x61, 0x72, 0x74]]),
               err := some e } :=
  ⟨⟨by decide, by decide, by decide, by decide, by decide, by decide⟩,
    C10_duplicate_header _ [[0x78]] [[0x6B], [0x3D, 0x79, 0x70, 0x61, 0x72, 0x74]] [[0x6C]]
      [0x3D, 0x79, 0x62, 0x65, 0x67, 0x69, 0x6E, 0x20, 0x73, 0x69, 0x7A, 0x65, 0x3D, 0x31]
      [0x3D, 0x79, 0x62, 0x65, 0x67, 0x69, 0x6E] [([0x73, 0x69, 0x7A, 0x65], [0x31])]
      (by decide) (by decide) (by decide) (by decide) (by decide) (by decide)⟩

/-! ## Splitting and trimming -/

theorem Split_ne_nil (sep : Nat) (l : List Nat) : Split sep l ≠ [] := by
  induction l with
  | nil => simp [Split]
  | cons b l ih =>
    unfold Split
    split
    · simp
    · split <;> simp

theorem Split_no_sep (sep : Nat) (a : List Nat) (h : sep ∉ a) : Split sep a = [a] := by
  induction a with
  | nil => rfl
  | cons b a ih =>
    have hb : ¬ b = sep := fun e => h (e ▸ List.mem_cons_self _ _)
    have ha : sep ∉ a := fun e => h (List.mem_cons_of_mem _ e)
    simp [Split, hb, ih ha]

theorem Split_append_sep (sep : Nat) (a b : List Nat) (h : sep ∉ a) :
    Split sep (a ++ sep :: b) = a :: Split sep b := by
  induction a with
  | nil => simp [Split]
  | cons x a ih =>
    have hx : ¬ x = sep := fun e => h (e ▸ List.mem_cons_self _ _)
    have ha : sep ∉ a := fun e => h (List.mem_cons_of_mem _ e)
    simp [Split, hx, ih ha]

theorem spaceRunes_mem_flatten (r : List Nat) (hr : r ∈ spaceRunes) (b : Nat) (hb : b ∈ r) :
    b ∈ spaceRunes.flatten :=
  List.mem_flatten.2 ⟨r, hr, hb⟩

theorem spaceRunes_ne_nil (r : List Nat) (hr : r ∈ spaceRunes) : r ≠ [] := by
  revert r
  decide

theorem dropSpaceRune_none (x : Nat) (rest : List Nat) (hx : x ∉ spaceRunes.flatten) :
    dropSpaceRune (x :: rest) = none := by
  unfold dropSpaceRune
  have : spaceRunes.find? (fun r => r.isPrefixOf (x :: rest)) = none := by
    rw [List.find?_eq_none]
    intro r hr hp
    cases r with
    | nil => exact spaceRunes_ne_nil _ hr rfl
    | cons r0 r1 =>
      simp only [List.isPrefixOf, Bool.and_eq_true, beq_iff_eq] at hp
      exact hx (hp.1 ▸ spaceRunes_mem_flatten _ hr r0 (List.mem_cons_self _ _))
  rw [this]

theorem trimLeftSpace_stop (fuel x : Nat) (rest : List Nat) (hx : x ∉ spaceRunes.flatten) :
    trimLeftSpace fuel (x :: rest) = x :: rest := by
  cases fuel with
  | zero => rfl
  | succ n => simp [trimLeftSpace, dropSpaceRune_none x rest hx]

theorem trimLeftSpace_step (fuel : Nat) (s t : List Nat) (h : dropSpaceRune s = some t) :
    trimLeftSpace (fuel + 1) s = trimLeftSpace fuel t := by
  simp [trimLeftSpace, h]

theorem trimLeftSpaceRev_keeps (fuel c : Nat) (A B : List Nat)
    (hc : c ∉ spaceRunes.flatten) :
    ∃ A1, A1 <:+ A ∧ trimLeftSpaceRev fuel (A ++ c :: B) = A1 ++ c :: B := by
  induction fuel generalizing A with
  | zero => exact ⟨A, List.suffix_refl _, rfl⟩
  | succ fuel ih =>
    unfold trimLeftSpaceRev dropSpaceRuneRev
    cases hfind : spaceRunes.find? (fun r => r.reverse.isPrefixOf (A ++ c :: B)) with
    | none => exact ⟨A, List.suffix_refl _, rfl⟩
    | some r =>
      have hr : r ∈ spaceRunes := List.mem_of_find?_eq_some hfind
      have hp : r.reverse <+: A ++ c :: B := by
        have := List.find?_some hfind
        simpa [List.isPrefixOf_iff_prefix] using this
      have hlen : r.length ≤ A.length := by
        by_contra hgt
        have hgt : A.length < r.reverse.length := by simpa using hgt
        obtain ⟨t, ht⟩ := hp
        have h1 : (r.reverse ++ t)[A.length]? = (A ++ c :: B)[A.length]? := by rw [ht]
        rw [List.getElem?_append_left hgt, List.getElem?_append_right (Nat.le_refl _)] at h1
        simp at h1
        have hmem : c ∈ r.reverse := List.getElem?_mem h1
        exact hc (spaceRunes_mem_flatten r hr c (by simpa using hmem))
      have hdrop : List.drop r.length (A ++ c :: B) = List.drop r.length A ++ c :: B := by
        rw [List.drop_append_of_le_length hlen]
      obtain ⟨A1, hA1, hrec⟩ := ih (List.drop r.length A)
      refine ⟨A1, hA1.trans (List.drop_suffix _ _), ?_⟩
      simp only [hdrop]
      exact hrec

/-- Trimming a string that is a space, a byte that is not white space, more bytes, an
`'='` and a tail: the leading space goes, and of the tail a first part stays. -/
theorem TrimSpace_fields (x : Nat) (X T : List Nat) (hx : x ∉ spaceRunes.flatten) :
    ∃ T1, T1 <+: T ∧ TrimSpace (0x20 :: x :: X ++ 0x3D :: T) = x :: X ++ 0x3D :: T1 := by
  have hleft : trimLeftSpace (0x20 :: x :: X ++ 0x3D :: T).length (0x20 :: x :: X ++ 0x3D :: T)
      = x :: X ++ 0x3D :: T := by
    have hd : dropSpaceRune (0x20 :: x :: X ++ 0x3D :: T) = some (x :: X ++ 0x3D :: T) := by
      simp [dropSpaceRune, spaceRunes, List.find?, List.isPrefixOf]
    simp only [List.cons_append] at hd
    simp only [List.cons_append, List.length_cons]
    rw [trimLeftSpace_step _ _ _ hd]
    exact trimLeftSpace_stop _ x _ hx
  unfold TrimSpace
  simp only [hleft]
  have hrev : (x :: X ++ 0x3D :: T).reverse = T.reverse ++ 0x3D :: (x :: X).reverse := by
    simp
  rw [hrev]
  obtain ⟨A1, hA1, hrec⟩ := trimLeftSpaceRev_keeps (x :: X ++ 0x3D :: T).length 0x3D T.reverse
    (x :: X).reverse (by decide)
  rw [hrec]
  refine ⟨A1.reverse, ?_, by simp⟩
  have := List.reverse_prefix.2 hA1
  simpa using this

/-! ## Parsing the marker lines that Encode writes -/

theorem not_mem_of_decimal (x : Nat) (D : List Nat) (hD : ∀ c ∈ D, isDecimal c = true)
    (hx : isDecimal x = false) : x ∉ D := by
  intro h
  rw [hD x h] at hx
  exact Bool.noConfusion hx

theorem TrimPrefix_append (p rest : List Nat) : TrimPrefix (p ++ rest) p = rest := by
  have : HasPrefix (p ++ rest) p = true := by
    simp [HasPrefix, List.isPrefixOf_iff_prefix]
  simp [TrimPrefix, this]

theorem markerGet_header (D1 D2 p : List Nat) :
    markerGet (some (markerSet (markerSet (markerSet [] [0x6C, 0x69, 0x6E, 0x65] D1)
      [0x73, 0x69, 0x7A, 0x65] D2) [0x6E, 0x61, 0x6D, 0x65] p)) sizeKey = D2 := by
  simp [markerSet, markerGet, sizeKey]

theorem markerGet_footer (D p : List Nat) :
    markerGet (some (markerSet (markerSet [] [0x73, 0x69, 0x7A, 0x65] D)
      [0x63, 0x72, 0x63, 0x33, 0x32] p)) sizeKey = D := by
  simp [markerSet, markerGet, sizeKey]

/-- The header line that Encode writes is parsed, and its size is the one written. -/
theorem ParseMarkerLine_header (D1 D2 N : List Nat)
    (hD1 : ∀ c ∈ D1, isDecimal c = true) (hD2 : ∀ c ∈ D2, isDecimal c = true)
    (hN : 0x20 ∉ N) :
    ∃ m, ParseMarkerLine (Ybegin ++ [0x20, 0x6C, 0x69, 0x6E, 0x65, 0x3D] ++ D1
        ++ [0x20, 0x73, 0x69, 0x7A, 0x65, 0x3D] ++ D2
        ++ [0x20, 0x6E, 0x61, 0x6D, 0x65, 0x3D] ++ N) Ybegin = some m
      ∧ markerGet (some m) sizeKey = D2 := by
  obtain ⟨T1, hT1, htrim⟩ := TrimSpace_fields 0x6C
    ([0x69, 0x6E, 0x65, 0x3D] ++ D1 ++ [0x20, 0x73, 0x69, 0x7A, 0x65, 0x3D] ++ D2
      ++ [0x20, 0x6E, 0x61, 0x6D, 0x65]) N (by decide)
  have hT1s : (0x20 : Nat) ∉ T1 := fun h => hN (hT1.subset h)
  have h1s : (0x20 : Nat) ∉ D1 := not_mem_of_decimal _ _ hD1 (by decide)
  have h2s : (0x20 : Nat) ∉ D2 := not_mem_of_decimal _ _ hD2 (by decide)
  have h1e : (0x3D : Nat) ∉ D1 := not_mem_of_decimal _ _ hD1 (by decide)
  have h2e : (0x3D : Nat) ∉ D2 := not_mem_of_decimal _ _ hD2 (by decide)
  obtain ⟨p, ps, hp⟩ := List.exists_cons_of_ne_nil (Split_ne_nil 0x3D T1)
  refine ⟨markerSet (markerSet (markerSet [] [0x6C, 0x69, 0x6E, 0x65] D1)
      [0x73, 0x69, 0x7A, 0x65] D2) [0x6E, 0x61, 0x6D, 0x65] p, ?_, markerGet_header _ _ _⟩
  unfold ParseMarkerLine
  have hline : Ybegin ++ [0x20, 0x6C, 0x69, 0x6E, 0x65, 0x3D] ++ D1
        ++ [0x20, 0x73, 0x69, 0x7A, 0x65, 0x3D] ++ D2
        ++ [0x20, 0x6E, 0x61, 0x6D, 0x65, 0x3D] ++ N
      = Ybegin ++ (0x20 :: 0x6C :: ([0x69, 0x6E, 0x65, 0x3D] ++ D1
          ++ [0x20, 0x73, 0x69, 0x7A, 0x65, 0x3D] ++ D2
          ++ [0x20, 0x6E, 0x61, 0x6D, 0x65]) ++ 0x3D :: N) := by
    simp [List.append_assoc]
  rw [hline, TrimPrefix_append, htrim]
  have hsplit : 0x6C :: ([0x69, 0x6E, 0x65, 0x3D] ++ D1
          ++ [0x20, 0x73, 0x69, 0x7A, 0x65, 0x3D] ++ D2
          ++ [0x20, 0x6E, 0x61, 0x6D, 0x65]) ++ 0x3D :: T1
      = ([0x6C, 0x69, 0x6E, 0x65, 0x3D] ++ D1) ++ 0x20 ::
          (([0x73, 0x69, 0x7A, 0x65, 0x3D] ++ D2) ++ 0x20 ::
            ([0x6E, 0x61, 0x6D, 0x65, 0x3D] ++ T1)) := by
    simp [List.append_assoc]
  rw [hsplit, Split_append_sep _ _ _ (by simp [h1s]), Split_append_sep _ _ _ (by simp [h2s]),
    Split_no_sep _ _ (by simp [hT1s])]
  have e1 : Split 0x3D ([0x6C, 0x69, 0x6E, 0x65, 0x3D] ++ D1) = [[0x6C, 0x69, 0x6E, 0x65], D1] := by
    have := Split_append_sep 0x3D [0x6C, 0x69, 0x6E, 0x65] D1 (by decide)
    rw [Split_no_sep _ _ h1e] at this
    simpa using this
  have e2 : Split 0x3D ([0x73, 0x69, 0x7A, 0x65, 0x3D] ++ D2) = [[0x73, 0x69, 0x7A, 0x65], D2] := by
    have := Split_append_sep 0x3D [0x73, 0x69, 0x7A, 0x65] D2 (by decide)
    rw [Split_no_sep _ _ h2e] at this
    simpa using this
  have e3 : Split 0x3D ([0x6E, 0x61, 0x6D, 0x65, 0x3D] ++ T1)
      = [0x6E, 0x61, 0x6D, 0x65] :: p :: ps := by
    have := Split_append_sep 0x3D [0x6E, 0x61, 0x6D, 0x65] T1 (by decide)
    rw [hp] at this
    simpa using this
  simp only [parseEntries, e1, e2, e3]

/-- The footer line that Encode writes is parsed, and its size is the one written. -/
theorem ParseMarkerLine_footer (D H : List Nat)
    (hD : ∀ c ∈ D, isDecimal c = true) (hH : 0x20 ∉ H) :
    ∃ m, ParseMarkerLine (Yend ++ [0x20, 0x73, 0x69, 0x7A, 0x65, 0x3D] ++ D
        ++ [0x20, 0x63, 0x72, 0x63, 0x33, 0x32, 0x3D] ++ H) Yend = some m
      ∧ markerGet (some m) sizeKey = D := by
  obtain ⟨T1, hT1, htrim⟩ := TrimSpace_fields 0x73
    ([0x69, 0x7A, 0x65, 0x3D] ++ D ++ [0x20, 0x63, 0x72, 0x63, 0x33, 0x32]) H (by decide)
  have hT1s : (0x20 : Nat) ∉ T1 := fun h => hH (hT1.subset h)
  have h1s : (0x20 : Nat) ∉ D := not_mem_of_decimal _ _ hD (by decide)
  have h1e : (0x3D : Nat) ∉ D := not_mem_of_decimal _ _ hD (by decide)
  obtain ⟨p, ps, hp⟩ := List.exists_cons_of_ne_nil (Split_ne_nil 0x3D T1)
  refine ⟨markerSet (markerSet [] [0x73, 0x69, 0x7A, 0x65] D)
      [0x63, 0x72, 0x63, 0x33, 0x32] p, ?_, markerGet_footer _ _⟩
  unfold ParseMarkerLine
  have hline : Yend ++ [0x20, 0x73, 0x69, 0x7A, 0x65, 0x3D] ++ D
        ++ [0x20, 0x63, 0x72, 0x63, 0x33, 0x32, 0x3D] ++ H
      = Yend ++ (0x20 :: 0x73 :: ([0x69, 0x7A, 0x65, 0x3D] ++ D
          ++ [0x20, 0x63, 0x72, 0x63, 0x33, 0x32]) ++ 0x3D :: H) := by
    simp [List.append_assoc]
  rw [hline, TrimPrefix_append, htrim]
  have hsplit : 0x73 :: ([0x69, 0x7A, 0x65, 0x3D] ++ D
          ++ [0x20, 0x63, 0x72, 0x63, 0x33, 0x32]) ++ 0x3D :: T1
      = ([0x73, 0x69, 0x7A, 0x65, 0x3D] ++ D) ++ 0x20 ::
          ([0x63, 0x72, 0x63, 0x33, 0x32, 0x3D] ++ T1) := by
    simp [List.append_assoc]
  rw [hsplit, Split_append_sep _ _ _ (by simp [h1s]), Split_no_sep _ _ (by simp [hT1s])]
  have e1 : Split 0x3D ([0x73, 0x69, 0x7A, 0x65, 0x3D] ++ D) = [[0x73, 0x69, 0x7A, 0x65], D] := by
    have := Split_append_sep 0x3D [0x73, 0x69, 0x7A, 0x65] D (by decide)
    rw [Split_no_sep _ _ h1e] at this
    simpa using this
  have e2 : Split 0x3D ([0x63, 0x72, 0x63, 0x33, 0x32, 0x3D] ++ T1)
      = [0x63, 0x72, 0x63, 0x33, 0x32] :: p :: ps := by
    have := Split_append_sep 0x3D [0x63, 0x72, 0x63, 0x33, 0x32] T1 (by decide)
    rw [hp] at this
    simpa using this
  simp only [parseEntries, e1, e2]

/-! ## Reading back the lines that Encode writes -/

theorem dropCR_snoc (l : List Nat) : dropCR (l ++ [0x0D]) = l := by
  simp [dropCR]

theorem readLinesFrom_line (l rest cur : List Nat) (k : Nat) (h : 0x0A ∉ l) :
    readLinesFrom (l ++ CRLF ++ rest) cur k = (cur ++ l) :: readLinesFrom rest [] 0 := by
  induction l generalizing cur k with
  | nil =>
    have hcr : ¬ (0x0D : Nat) = 0x0A := by decide
    simp only [CRLF, List.nil_append, List.cons_append, readLinesFrom, List.append_nil, hcr,
      if_false, if_true]
    split <;> simp [dropCR_snoc]
  | cons x l ih =>
    have hx : ¬ x = 0x0A := fun e => h (e ▸ List.mem_cons_self _ _)
    have hl : 0x0A ∉ l := fun e => h (List.mem_cons_of_mem _ e)
    simp only [List.cons_append, readLinesFrom, hx, if_false]
    split
    · show readLinesFrom (l ++ CRLF ++ rest) (cur ++ [x]) _ = _
      rw [ih (cur ++ [x]) _ hl]
      simp
    · show readLinesFrom (l ++ CRLF ++ rest) (cur ++ [x]) _ = _
      rw [ih (cur ++ [x]) _ hl]
      simp

/-- Lines that end in CRLF are read back as they are, whatever follows them. -/
theorem readLinesFrom_joinLines_append (lines : List (List Nat)) (tail : List Nat)
    (h : ∀ l ∈ lines, 0x0A ∉ l) :
    readLinesFrom (joinLines lines ++ tail) [] 0 = lines ++ readLinesFrom tail [] 0 := by
  induction lines with
  | nil => rfl
  | cons l lines ih =>
    have h0 := readLinesFrom_line l (joinLines lines ++ tail) [] 0
      (h l (List.mem_cons_self _ _))
    have hj : joinLines (l :: lines) ++ tail = l ++ CRLF ++ (joinLines lines ++ tail) := by
      simp [joinLines]
    rw [hj, h0, ih (fun x hx => h x (List.mem_cons_of_mem _ hx))]
    simp

theorem readLinesFrom_joinLines (lines : List (List Nat)) (h : ∀ l ∈ lines, 0x0A ∉ l) :
    readLinesFrom (joinLines lines) [] 0 = lines := by
  have := readLinesFrom_joinLines_append lines [] h
  simpa [readLinesFrom] using this

/-- A last line without `'\n'` whose last piece does not fill the buffer is kept. -/
theorem readLinesFrom_last_kept (l cur : List Nat) (k : Nat) (hlf : 0x0A ∉ l)
    (hne : 0 < k ∨ l ≠ []) (hlen : k + l.length < bufSize) :
    readLinesFrom l cur k = [cur ++ l] := by
  induction l generalizing cur k with
  | nil =>
    have hk : k ≠ 0 := by
      rcases hne with h | h
      · omega
      · exact absurd rfl h
    simp [readLinesFrom, hk]
  | cons x l ih =>
    have hx : ¬ x = 0x0A := fun e => hlf (e ▸ List.mem_cons_self _ _)
    have hl : 0x0A ∉ l := fun e => hlf (List.mem_cons_of_mem _ e)
    simp only [List.length_cons] at hlen
    have hk : ¬ k + 1 = bufSize := by omega
    simp only [readLinesFrom, hx, hk, if_false]
    rw [ih (cur ++ [x]) (k + 1) hl (Or.inl (Nat.succ_pos k)) (by omega)]
    simp

/-- A last line without `'\n'` and without `'\r'` whose last piece fills the buffer
exactly is not among the lines. -/
theorem readLinesFrom_last_dropped (l cur : List Nat) (k : Nat) (hlf : 0x0A ∉ l)
    (hcr : 0x0D ∉ l) (hk : k < bufSize) (hlen : k + l.length = bufSize) :
    readLinesFrom l cur k = [] := by
  induction l generalizing cur k with
  | nil =>
    simp only [List.length_nil, Nat.add_zero] at hlen
    omega
  | cons x l ih =>
    have hx : ¬ x = 0x0A := fun e => hlf (e ▸ List.mem_cons_self _ _)
    have hx2 : ¬ x = 0x0D := fun e => hcr (e ▸ List.mem_cons_self _ _)
    have hl : 0x0A ∉ l := fun e => hlf (List.mem_cons_of_mem _ e)
    have hl2 : 0x0D ∉ l := fun e => hcr (List.mem_cons_of_mem _ e)
    simp only [List.length_cons] at hlen
    simp only [readLinesFrom, hx, hx2, if_false]
    by_cases hfull : k + 1 = bufSize
    · have hnil : l = [] := List.length_eq_zero.1 (by omega)
      subst hnil
      simp [hfull, readLinesFrom]
    · simp only [hfull, if_false]
      exact ih (cur ++ [x]) (k + 1) hl hl2 (by omega) (by omega)

/-! ## The encoded bytes -/

theorem encodeByte_cases (b : Nat) (hb : b < 256) :
    (encodeByte b = [(b + 42) % 256] ∧ (b + 42) % 256 ≠ 0x00 ∧ (b + 42) % 256 ≠ 0x0A
        ∧ (b + 42) % 256 ≠ 0x0D ∧ (b + 42) % 256 ≠ 0x3D)
    ∨ (encodeByte b = [0x3D, (b + 64) % 256]
        ∧ (b = 214 ∨ b = 224 ∨ b = 227 ∨ b = 19)) := by
  unfold encodeByte
  by_cases hc : IsCritical ((b + Answer) % 256) = true
  · right
    rw [if_pos hc]
    simp [IsCritical, Answer, Escape] at hc
    refine ⟨by simp [Escape, Crit], ?_⟩
    omega
  · left
    rw [if_neg hc]
    simp [IsCritical, Answer, Escape] at hc
    refine ⟨by simp [Answer], ?_⟩
    omega

theorem encodeBytes_cons (b : Nat) (l : List Nat) :
    encodeBytes (b :: l) = encodeByte b ++ encodeBytes l := by
  simp [encodeBytes]

theorem encodeBytes_append (a b : List Nat) :
    encodeBytes (a ++ b) = encodeBytes a ++ encodeBytes b := by
  simp [encodeBytes]

theorem encodeBytes_flatten (ls : List (List Nat)) :
    (ls.map encodeBytes).flatten = encodeBytes ls.flatten := by
  induction ls with
  | nil => rfl
  | cons l ls ih => simp [encodeBytes_append, ih]

theorem payloadLines_flatten (L : Nat) (hL : 0 < L) (S : List Nat) :
    (payloadLines L S).flatten = encodeBytes S := by
  rw [payloadLines, encodeBytes_flatten, chunks_flatten L hL S]

theorem isBytes_of_mem_chunks (L : Nat) (S : List Nat) (hS : isBytes S) (c : List Nat)
    (hc : c ∈ chunks L S) : isBytes c := by
  simp only [chunks, List.mem_map, List.mem_range] at hc
  obtain ⟨k, _, rfl⟩ := hc
  intro b hb
  exact hS b (List.mem_of_mem_drop (List.mem_of_mem_take hb))

theorem encodeBytes_no_LF (c : List Nat) (hc : isBytes c) : 0x0A ∉ encodeBytes c := by
  induction c with
  | nil => simp [encodeBytes]
  | cons b c ih =>
    rw [encodeBytes_cons]
    intro h
    rcases List.mem_append.1 h with h | h
    · rcases encodeByte_cases b (hc b (List.mem_cons_self _ _)) with ⟨e, h1⟩ | ⟨e, h1⟩
      · rw [e] at h
        simp at h
        omega
      · rw [e] at h
        simp at h
        omega
    · exact ih (fun x hx => hc x (List.mem_cons_of_mem _ hx)) h

/-- No encoded line starts with the two bytes `=y`. -/
theorem encodeBytes_not_marker (c : List Nat) (hc : isBytes c) (rest : List Nat) :
    HasPrefix (encodeBytes c) (0x3D :: 0x79 :: rest) = false := by
  cases c with
  | nil => simp [encodeBytes, HasPrefix, List.isPrefixOf]
  | cons b c =>
    rw [encodeBytes_cons]
    rcases encodeByte_cases b (hc b (List.mem_cons_self _ _)) with ⟨e, h1⟩ | ⟨e, h1⟩
    · rw [e]
      have : ¬ (0x3D = (b + 42) % 256) := fun h => h1.2.2.2 h.symm
      simp [HasPrefix, List.isPrefixOf, this]
    · rw [e]
      have : ¬ (0x79 = (b + 64) % 256) := by omega
      simp [HasPrefix, List.isPrefixOf, this]

theorem decodeBytes_encodeByte (b : Nat) (hb : b < 256) (rest : List Nat) (s : DecState)
    (hs : s.isEscape = false) :
    decodeBytes (encodeByte b ++ rest) s =
      decodeBytes rest { s with
        isEscape := false, wr := s.wr ++ [b],
        outLength := (s.outLength + 1) % 4294967296 } := by
  rcases encodeByte_cases b hb with ⟨e, h1⟩ | ⟨e, h1⟩
  · rw [e]
    have hne : ¬ ((b + 42) % 256 = Escape) := h1.2.2.2
    have hv : ((b + 42) % 256 + 256 - Answer) % 256 = b := by
      simp only [Answer]
      omega
    simp only [List.singleton_append, decodeBytes, hne, if_false, hs, Bool.false_eq_true, hv]
    rfl
  · rw [e]
    have hne : ¬ ((b + 64) % 256 = Escape) := by
      simp only [Escape]
      omega
    have hv : ((b + 64) % 256 + 256 - Crit) % 256 = b := by
      simp only [Crit]
      omega
    simp only [List.cons_append, List.nil_append, decodeBytes, Escape, if_true, hne, if_false, hv]
    simp [Escape] at hne
    simp [hne, hv]

theorem decodeBytes_encodeBytes (c : List Nat) (hc : isBytes c) (s : DecState)
    (hs : s.isEscape = false) (hn : s.outLength < 4294967296) :
    decodeBytes (encodeBytes c) s =
      { s with
        isEscape := false, wr := s.wr ++ c,
        outLength := (s.outLength + c.length) % 4294967296 } := by
  induction c generalizing s with
  | nil =>
    obtain ⟨wr, n, esc, hd, ft⟩ := s
    simp only at hs hn
    simp [encodeBytes, decodeBytes, hs, Nat.mod_eq_of_lt hn]
  | cons b c ih =>
    rw [encodeBytes_cons, decodeBytes_encodeByte b (hc b (List.mem_cons_self _ _)) _ s hs,
      ih (fun x hx => hc x (List.mem_cons_of_mem _ hx)) _ rfl (Nat.mod_lt _ (by norm_num))]
    simp only [List.append_assoc, List.singleton_append, List.length_cons, Nat.mod_add_mod]
    congr 2
    omega

/-! ## Round trip -/

theorem headerLine_eq (lineLength : Int) (size : Nat) (filename : List Nat) :
    headerLine lineLength size filename = headerText lineLength size filename ++ CRLF := rfl

theorem footerLine_eq (size crc : Nat) :
    footerLine size crc = footerText size crc ++ CRLF := rfl

theorem formatInt_pos (lineLength : Int) (hL : 1 ≤ lineLength) :
    formatInt lineLength = FormatUint lineLength.toNat := by
  unfold formatInt
  rw [if_neg (by omega)]

theorem not_mem_of_lowerHex (x : Nat) (H : List Nat) (hH : ∀ c ∈ H, isLowerHex c = true)
    (hx : isLowerHex x = false) : x ∉ H := by
  intro h
  rw [hH x h] at hx
  exact Bool.noConfusion hx

theorem headerText_no_LF (lineLength : Int) (hL : 1 ≤ lineLength) (size : Nat)
    (filename : List Nat) (hN : 0x0A ∉ filename) :
    0x0A ∉ headerText lineLength size filename := by
  have h1 : (0x0A : Nat) ∉ FormatUint lineLength.toNat :=
    not_mem_of_decimal _ _ (FormatUint_all _) (by decide)
  have h2 : (0x0A : Nat) ∉ FormatUint size :=
    not_mem_of_decimal _ _ (FormatUint_all _) (by decide)
  simp [headerText, formatInt_pos lineLength hL, Ybegin, h1, h2, hN]

theorem footerText_no_LF (size crc : Nat) : 0x0A ∉ footerText size crc := by
  have h1 : (0x0A : Nat) ∉ FormatUint size :=
    not_mem_of_decimal _ _ (FormatUint_all _) (by decide)
  have h2 : (0x0A : Nat) ∉ formatHex08 crc :=
    not_mem_of_lowerHex _ _ (formatHex08_all _) (by decide)
  simp [footerText, Yend, h1, h2]

theorem decodeLoop_footer (line : List Nat) (rest : List (List Nat)) (s : DecState)
    (m : Marker) (hs : s.header.isSome = true) (hf : s.footer = none)
    (hb : HasPrefix line Ybegin = false) (hp : HasPrefix line Ypart = false)
    (he : HasPrefix line Yend = true) (hm : ParseMarkerLine line Yend = some m) :
    decodeLoop (line :: rest) s = decodeLoop rest { s with footer := some m } := by
  have hnone : s.header.isNone = false := by
    cases h : s.header with
    | none => simp [h] at hs
    | some _ => rfl
  simp [decodeLoop, hnone, hf, hb, hp, he, hm]

theorem decodeLoop_after_footer (rest : List (List Nat)) (s : DecState)
    (hs : s.header.isSome = true) (hf : s.footer.isSome = true) :
    decodeLoop rest s = some s := by
  have hnone : s.header.isNone = false := by
    cases h : s.header with
    | none => simp [h] at hs
    | some _ => rfl
  induction rest with
  | nil => rfl
  | cons l rest ih => simpa [decodeLoop, hnone, hf] using ih

theorem payloadLines_mem (L : Nat) (S : List Nat) (hS : isBytes S) (l : List Nat)
    (hl : l ∈ payloadLines L S) : ∃ c, isBytes c ∧ l = encodeBytes c := by
  simp only [payloadLines, List.mem_map] at hl
  obtain ⟨c, hc, rfl⟩ := hl
  exact ⟨c, isBytes_of_mem_chunks L S hS c hc, rfl⟩

theorem payloadOf_payloadLines (L : Nat) (hL : 0 < L) (S : List Nat) (hS : isBytes S) :
    payloadOf (payloadLines L S) = encodeBytes S := by
  unfold payloadOf
  rw [List.filter_eq_self.2, payloadLines_flatten L hL S]
  intro l hl
  obtain ⟨c, hc, rfl⟩ := payloadLines_mem L S hS l hl
  simp [Ypart, encodeBytes_not_marker c hc]

/-- Decode reads back what Encode wrote. -/
theorem Decode_encoded (S : List Nat) (lineLength : Int) (filename : List Nat)
    (hS : isBytes S) (hlen : S.length < 4294967296) (hL : 1 ≤ lineLength)
    (hsp : 0x20 ∉ filename) (hlf : 0x0A ∉ filename) :
    Decode (headerLine lineLength S.length filename
        ++ joinLines (payloadLines lineLength.toNat S)
        ++ footerLine S.length (ChecksumIEEE S))
      = some { out := S, err := none } := by
  have hn : 0 < lineLength.toNat := by omega
  have htext : headerLine lineLength S.length filename
        ++ joinLines (payloadLines lineLength.toNat S)
        ++ footerLine S.length (ChecksumIEEE S)
      = joinLines (headerText lineLength S.length filename
          :: (payloadLines lineLength.toNat S ++ [footerText S.length (ChecksumIEEE S)])) := by
    simp [headerLine_eq, footerLine_eq, joinLines, List.append_assoc]
  have hread : ReadLines (headerLine lineLength S.length filename
        ++ joinLines (payloadLines lineLength.toNat S)
        ++ footerLine S.length (ChecksumIEEE S))
      = headerText lineLength S.length filename
          :: (payloadLines lineLength.toNat S ++ [footerText S.length (ChecksumIEEE S)]) := by
    rw [htext]
    apply readLinesFrom_joinLines
    intro l hl
    rcases List.mem_cons.1 hl with rfl | hl
    · exact headerText_no_LF _ hL _ _ hlf
    · rcases List.mem_append.1 hl with hl | hl
      · obtain ⟨c, hc, rfl⟩ := payloadLines_mem _ S hS l hl
        exact encodeBytes_no_LF c hc
      · rw [List.mem_singleton.1 hl]
        exact footerText_no_LF _ _
  obtain ⟨m1, hm1, hg1⟩ := ParseMarkerLine_header (FormatUint lineLength.toNat)
    (FormatUint S.length) filename (FormatUint_all _) (FormatUint_all _) hsp
  obtain ⟨m2, hm2, hg2⟩ := ParseMarkerLine_footer (FormatUint S.length)
    (formatHex08 (ChecksumIEEE S)) (FormatUint_all _)
    (not_mem_of_lowerHex _ _ (formatHex08_all _) (by decide))
  have hhdr : headerText lineLength S.length filename
      = Ybegin ++ [0x20, 0x6C, 0x69, 0x6E, 0x65, 0x3D] ++ FormatUint lineLength.toNat
        ++ [0x20, 0x73, 0x69, 0x7A, 0x65, 0x3D] ++ FormatUint S.length
        ++ [0x20, 0x6E, 0x61, 0x6D, 0x65, 0x3D] ++ filename := by
    rw [headerText, formatInt_pos lineLength hL]
  have hp1 : HasPrefix (headerText lineLength S.length filename) Ybegin = true := by
    simp [HasPrefix, headerText, List.isPrefixOf_iff_prefix, List.append_assoc]
  have hf1 : HasPrefix (footerText S.length (ChecksumIEEE S)) Ybegin = false := by
    simp [HasPrefix, footerText, Yend, Ybegin, List.isPrefixOf]
  have hf2 : HasPrefix (footerText S.length (ChecksumIEEE S)) Ypart = false := by
    simp [HasPrefix, footerText, Yend, Ypart, List.isPrefixOf]
  have hf3 : HasPrefix (footerText S.length (ChecksumIEEE S)) Yend = true := by
    simp [HasPrefix, footerText, List.isPrefixOf_iff_prefix, List.append_assoc]
  have hmid : ∀ l ∈ payloadLines lineLength.toNat S,
      HasPrefix l Ybegin = false ∧ HasPrefix l Yend = false := by
    intro l hl
    obtain ⟨c, hc, rfl⟩ := payloadLines_mem _ S hS l hl
    exact ⟨encodeBytes_not_marker c hc _, encodeBytes_not_marker c hc _⟩
  have hstate : decodeBytes (encodeBytes S) { initialState with header := some m1 }
      = { wr := S, outLength := S.length, isEscape := false, header := some m1,
          footer := none } := by
    rw [decodeBytes_encodeBytes S hS _ rfl (by simp [initialState])]
    simp [initialState, Nat.mod_eq_of_lt hlen]
  unfold Decode
  rw [hread, decodeLoop_header _ _ initialState m1 rfl rfl hp1 (hhdr ▸ hm1),
    decodeLoop_payload _ _ { initialState with header := some m1 } rfl rfl hmid,
    payloadOf_payloadLines _ hn S hS, hstate,
    decodeLoop_footer _ []
      { wr := S, outLength := S.length, isEscape := false, header := some m1, footer := none }
      m2 rfl rfl hf1 hf2 hf3 hm2]
  simp [decodeLoop, validate, hg1, hg2]

/-- C1: for every byte sequence S shorter than 2^32 bytes, every line length L >= 1
and every filename N without space, CR or LF, Encode (given enough fuel to finish)
writes a text on which Decode returns no error and writes exactly S. -/
theorem C1_round_trip (fuel : Nat) (S : List Nat) (lineLength : Int) (filename : List Nat)
    (hS : isBytes S) (hlen : S.length < 4294967296) (hL : 1 ≤ lineLength)
    (hN : 0x20 ∉ filename ∧ 0x0D ∉ filename ∧ 0x0A ∉ filename)
    (hfuel : S.length / lineLength.toNat < fuel) :
    ∃ text, Encode fuel S lineLength filename = some text
      ∧ Decode text = some { out := S, err := none } :=
  ⟨_, Encode_eq fuel S lineLength filename hL hfuel,
    Decode_encoded S lineLength filename hS hlen hL hN.1 hN.2.2⟩

theorem C1_round_trip_witness :
    (isBytes [0xD6, 0x41, 0x13] ∧ [0xD6, 0x41, 0x13].length < 4294967296 ∧ (1 : Int) ≤ 2
      ∧ (0x20 ∉ [0x61] ∧ 0x0D ∉ [0x61] ∧ 0x0A ∉ [0x61])
      ∧ [0xD6, 0x41, 0x13].length / (2 : Int).toNat < 3)
    ∧ ∃ text, Encode 3 [0xD6, 0x41, 0x13] 2 [0x61] = some text
      ∧ Decode text = some { out := [0xD6, 0x41, 0x13], err := none } :=
  ⟨⟨by decide, by decide, by decide, by decide, by decide⟩,
    C1_round_trip 3 [0xD6, 0x41, 0x13] 2 [0x61] (by decide) (by decide) (by decide)
      (by decide) (by decide)⟩

/-! ## ParseMarkerLine and non-positive line lengths, evaluated -/

/-- C14 (the code at the input of the claim): on the marker line "=ybegin name=a=b"
ParseMarkerLine splits the token name=a=b at every '=' into "name", "a", "b" and maps
name to "a", where the claim has the whole text "a=b" after the first '='; on
"=ybegin size=1 size=2" the last occurrence wins, size is "2". -/
theorem C14_value_stops_at_second_equals :
    Split 0x3D [0x6E, 0x61, 0x6D, 0x65, 0x3D, 0x61, 0x3D, 0x62] = [[0x6E, 0x61, 0x6D, 0x65],
      [0x61], [0x62]]
    ∧ ParseMarkerLine [0x3D, 0x79, 0x62, 0x65, 0x67, 0x69, 0x6E, 0x20, 0x6E, 0x61, 0x6D, 0x65,
      0x3D, 0x61, 0x3D, 0x62] Ybegin = some [([0x6E, 0x61, 0x6D, 0x65], [0x61])]
    ∧ ParseMarkerLine [0x3D, 0x79, 0x62, 0x65, 0x67, 0x69, 0x6E, 0x20, 0x73, 0x69, 0x7A, 0x65,
      0x3D, 0x31, 0x20, 0x73, 0x69, 0x7A, 0x65, 0x3D, 0x32] Ybegin = some [([0x73, 0x69, 0x7A,
      0x65], [0x32])] := by
  decide

/-- C15 (the code at inputs of the claim): on the bare line "=ybegin" and on the line
"=ybegin line=128  size=1" with two spaces between the attributes, ParseMarkerLine
reaches parts[1] on a token without '=' and panics; so does Decode on the stream
"=ybegin" CRLF. No error is returned to the caller. -/
theorem C15_token_without_equals_panics :
    ParseMarkerLine [0x3D, 0x79, 0x62, 0x65, 0x67, 0x69, 0x6E] Ybegin = none
    ∧ ParseMarkerLine [0x3D, 0x79, 0x62, 0x65, 0x67, 0x69, 0x6E, 0x20, 0x6C, 0x69, 0x6E, 0x65,
      0x3D, 0x31, 0x32, 0x38, 0x20, 0x20, 0x73, 0x69, 0x7A, 0x65, 0x3D, 0x31] Ybegin = none
    ∧ Decode [0x3D, 0x79, 0x62, 0x65, 0x67, 0x69, 0x6E, 0x0D, 0x0A] = none := by
  decide

/-- C16 (the code at the input of the claim): for the byte "A", line length 128 and the
filename "my file.bin", Encode writes
"=ybegin line=128 size=1 name=my file.bin" CRLF "k" CRLF "=yend size=1 crc32=d3d99e8b"
CRLF, and on this text Decode panics in ParseMarkerLine, at the token "file.bin". -/
theorem C16_filename_with_space_panics :
    Encode 1 [0x41] 128 [0x6D, 0x79, 0x20, 0x66, 0x69, 0x6C, 0x65, 0x2E, 0x62, 0x69, 0x6E]
      = some [0x3D, 0x79, 0x62, 0x65, 0x67, 0x69, 0x6E, 0x20, 0x6C, 0x69, 0x6E, 0x65, 0x3D, 0x31,
        0x32, 0x38, 0x20, 0x73, 0x69, 0x7A, 0x65, 0x3D, 0x31, 0x20, 0x6E, 0x61, 0x6D, 0x65, 0x3D,
        0x6D, 0x79, 0x20, 0x66, 0x69, 0x6C, 0x65, 0x2E, 0x62, 0x69, 0x6E, 0x0D, 0x0A, 0x6B, 0x0D,
        0x0A, 0x3D, 0x79, 0x65, 0x6E, 0x64, 0x20, 0x73, 0x69, 0x7A, 0x65, 0x3D, 0x31, 0x20, 0x63,
        0x72, 0x63, 0x33, 0x32, 0x3D, 0x64, 0x33, 0x64, 0x39, 0x39, 0x65, 0x38, 0x62, 0x0D, 0x0A]
    ∧ Decode [0x3D, 0x79, 0x62, 0x65, 0x67, 0x69, 0x6E, 0x20, 0x6C, 0x69, 0x6E, 0x65, 0x3D, 0x31,
      0x32, 0x38, 0x20, 0x73, 0x69, 0x7A, 0x65, 0x3D, 0x31, 0x20, 0x6E, 0x61, 0x6D, 0x65, 0x3D,
      0x6D, 0x79, 0x20, 0x66, 0x69, 0x6C, 0x65, 0x2E, 0x62, 0x69, 0x6E, 0x0D, 0x0A, 0x6B, 0x0D,
      0x0A, 0x3D, 0x79, 0x65, 0x6E, 0x64, 0x20, 0x73, 0x69, 0x7A, 0x65, 0x3D, 0x31, 0x20, 0x63,
      0x72, 0x63, 0x33, 0x32, 0x3D, 0x64, 0x33, 0x64, 0x39, 0x39, 0x65, 0x38, 0x62, 0x0D, 0x0A]
      = none := by
  decide

theorem innerLoop_zero (s : EncState) : innerLoop 0 s = s := rfl

theorem outerLoop_nonpos (lineLength : Int) (hL : lineLength ≤ 0) (fuel : Nat) (s : EncState)
    (hs : s.eof = false) : outerLoop lineLength fuel s = none := by
  have h0 : lineLength.toNat = 0 := by omega
  induction fuel generalizing s with
  | zero => rfl
  | succ fuel ih =>
    unfold outerLoop
    simp only [h0, innerLoop_zero, hs, Bool.false_eq_true, if_false]
    exact ih _ rfl

/-- C17 (the code for every input of the claim): with a line length that is zero or
negative the inner loop reads no byte, `err` stays nil, and the outer loop of Encode
does not end: no number of iterations suffices, whatever the input and the filename;
Encode never writes the marker lines. -/
theorem C17_nonpositive_line_length_never_ends (fuel : Nat) (S : List Nat) (lineLength : Int)
    (filename : List Nat) (hL : lineLength ≤ 0) :
    Encode fuel S lineLength filename = none := by
  unfold Encode
  rw [outerLoop_nonpos lineLength hL fuel _ rfl]

theorem C17_nonpositive_line_length_never_ends_witness :
    ((0 : Int) ≤ 0 ∧ Encode 1000 [0x41] 0 [0x61] = none)
    ∧ ((-5 : Int) ≤ 0 ∧ Encode 1000 [] (-5) [0x61] = none) :=
  ⟨⟨by decide, C17_nonpositive_line_length_never_ends 1000 [0x41] 0 [0x61] (by decide)⟩,
    ⟨by decide, C17_nonpositive_line_length_never_ends 1000 [] (-5) [0x61] (by decide)⟩⟩

/-! ## A header line, payload lines and a footer line -/

theorem HasPrefix_Yend (f : List Nat) (hf : HasPrefix f Yend = true) :
    HasPrefix f Ybegin = false ∧ HasPrefix f Ypart = false := by
  have hp : Yend <+: f := by simpa [HasPrefix, List.isPrefixOf_iff_prefix] using hf
  obtain ⟨t, rfl⟩ := hp
  constructor <;> simp [HasPrefix, Yend, Ybegin, Ypart, List.isPrefixOf]

theorem HasPrefix_Ybegin (h : List Nat) (hh : HasPrefix h Ybegin = true) :
    HasPrefix h Yend = false ∧ HasPrefix h Ypart = false := by
  have hp : Ybegin <+: h := by simpa [HasPrefix, List.isPrefixOf_iff_prefix] using hh
  obtain ⟨t, rfl⟩ := hp
  constructor <;> simp [HasPrefix, Yend, Ybegin, Ypart, List.isPrefixOf]

/-- The state in which the loop of Decode ends on noise, a header line, lines that are
no header and no footer, a footer line, and anything after it. -/
theorem decodeLoop_envelope (pre mid rest : List (List Nat)) (h f : List Nat)
    (m1 m2 : Marker)
    (hpre : ∀ l ∈ pre, HasPrefix l Ybegin = false)
    (hh : HasPrefix h Ybegin = true) (hm1 : ParseMarkerLine h Ybegin = some m1)
    (hmid : ∀ l ∈ mid, HasPrefix l Ybegin = false ∧ HasPrefix l Yend = false)
    (hf : HasPrefix f Yend = true) (hm2 : ParseMarkerLine f Yend = some m2) :
    decodeLoop (pre ++ h :: (mid ++ f :: rest)) initialState =
      some { decodeBytes (payloadOf mid) { initialState with header := some m1 } with
        footer := some m2 } := by
  rw [decodeLoop_before_header pre _ initialState rfl hpre,
    decodeLoop_header h _ initialState m1 rfl rfl hh hm1,
    decodeLoop_payload mid _ { initialState with header := some m1 } rfl rfl hmid,
    decodeLoop_footer f rest (decodeBytes (payloadOf mid) { initialState with header := some m1 })
      m2 (by rw [decodeBytes_header]; rfl) (by rw [decodeBytes_footer]; rfl)
      (HasPrefix_Yend f hf).1 (HasPrefix_Yend f hf).2 hf hm2,
    decodeLoop_after_footer rest
      { decodeBytes (payloadOf mid) { initialState with header := some m1 } with
        footer := some m2 }
      (by simp only [decodeBytes_header]; rfl) rfl]

theorem decodeBytes_wr_initial (payload : List Nat) (m : Option Marker) :
    (decodeBytes payload { initialState with header := m }).wr = decodePayload payload := by
  rw [decodeBytes_with_header]
  rfl

theorem encodeBytes_replicate (n : Nat) :
    encodeBytes (List.replicate n 0x41) = List.replicate n 0x6B := by
  induction n with
  | zero => rfl
  | succ n ih =>
    rw [List.replicate_succ, encodeBytes_cons, ih]
    rfl

theorem isBytes_replicate (n : Nat) : isBytes (List.replicate n 0x41) := by
  intro b hb
  rw [(List.mem_replicate.1 hb).2]
  decide

theorem HasPrefix_replicate (n : Nat) (rest : List Nat) :
    HasPrefix (List.replicate n 0x6B) (0x3D :: rest) = false := by
  cases n with
  | zero => simp [HasPrefix, List.isPrefixOf]
  | succ n => simp [HasPrefix, List.isPrefixOf, List.replicate_succ]

/-- Decode on a header line, one payload line of `n` bytes "k" and a footer line, when
both size attributes are the decimal of `n mod 2^32`: no error, `n` bytes written. -/
theorem Decode_long_line (n : Nat) (h f : List Nat) (m1 m2 : Marker)
    (hh : HasPrefix h Ybegin = true) (hm1 : ParseMarkerLine h Ybegin = some m1)
    (hf : HasPrefix f Yend = true) (hm2 : ParseMarkerLine f Yend = some m2)
    (hlfh : 0x0A ∉ h) (hlff : 0x0A ∉ f)
    (hs1 : markerGet (some m1) sizeKey = FormatUint (n % 4294967296))
    (hs2 : markerGet (some m2) sizeKey = FormatUint (n % 4294967296)) :
    Decode (h ++ CRLF ++ List.replicate n 0x6B ++ CRLF ++ f ++ CRLF)
      = some { out := List.replicate n 0x41, err := none } := by
  have htext : h ++ CRLF ++ List.replicate n 0x6B ++ CRLF ++ f ++ CRLF
      = joinLines ([] ++ h :: ([List.replicate n 0x6B] ++ f :: [])) := by
    simp [joinLines, List.append_assoc]
  have hread : ReadLines (h ++ CRLF ++ List.replicate n 0x6B ++ CRLF ++ f ++ CRLF)
      = [] ++ h :: ([List.replicate n 0x6B] ++ f :: []) := by
    rw [htext]
    apply readLinesFrom_joinLines
    intro l hl
    simp only [List.nil_append, List.singleton_append, List.mem_cons, List.not_mem_nil,
      or_false] at hl
    rcases hl with rfl | rfl | rfl
    · exact hlfh
    · intro hm
      have := (List.mem_replicate.1 hm).2
      omega
    · exact hlff
  have hmid : ∀ l ∈ [List.replicate n 0x6B],
      HasPrefix l Ybegin = false ∧ HasPrefix l Yend = false := by
    intro l hl
    rw [List.mem_singleton.1 hl]
    exact ⟨HasPrefix_replicate n _, HasPrefix_replicate n _⟩
  have hpay : payloadOf [List.replicate n 0x6B] = encodeBytes (List.replicate n 0x41) := by
    have : HasPrefix (List.replicate n 0x6B) Ypart = false := HasPrefix_replicate n _
    simp [payloadOf, this, encodeBytes_replicate]
  have hstate : decodeBytes (encodeBytes (List.replicate n 0x41))
        { initialState with header := some m1 }
      = { wr := List.replicate n 0x41, outLength := n % 4294967296, isEscape := false,
          header := some m1, footer := none } := by
    rw [decodeBytes_encodeBytes _ (isBytes_replicate n) _ rfl (by simp [initialState])]
    simp [initialState]
  unfold Decode
  rw [hread, decodeLoop_envelope [] _ [] h f m1 m2 (by simp) hh hm1 hmid hf hm2, hpay, hstate]
  simp [validate, hs1, hs2]

/-- C12 (the code at an input of the claim): on the stream
"=ybegin line=128 size=0 name=a" CRLF, a payload line of 4294967296 bytes "k", CRLF,
"=yend size=0 crc32=00000000" CRLF, the header declares the size "0", Decode writes
4294967296 bytes, its counter `outLength` has wrapped to 0, and Decode returns no
error. -/
theorem C12_counter_wraps_at_2_pow_32 :
    Decode ([0x3D, 0x79, 0x62, 0x65, 0x67, 0x69, 0x6E, 0x20, 0x6C, 0x69, 0x6E, 0x65, 0x3D, 0x31,
      0x32, 0x38, 0x20, 0x73, 0x69, 0x7A, 0x65, 0x3D, 0x30, 0x20, 0x6E, 0x61, 0x6D, 0x65, 0x3D,
      0x61] ++ CRLF ++ List.replicate 4294967296 0x6B ++ CRLF
        ++ [0x3D, 0x79, 0x65, 0x6E, 0x64, 0x20, 0x73, 0x69, 0x7A, 0x65, 0x3D, 0x30, 0x20, 0x63,
          0x72, 0x63, 0x33, 0x32, 0x3D, 0x30, 0x30, 0x30, 0x30, 0x30, 0x30, 0x30, 0x30] ++ CRLF)
      = some { out := List.replicate 4294967296 0x41, err := none }
    ∧ (List.replicate 4294967296 0x41).length = 4294967296
    ∧ (ParseMarkerLine [0x3D, 0x79, 0x62, 0x65, 0x67, 0x69, 0x6E, 0x20, 0x6C, 0x69, 0x6E, 0x65,
      0x3D, 0x31, 0x32, 0x38, 0x20, 0x73, 0x69, 0x7A, 0x65, 0x3D, 0x30, 0x20, 0x6E, 0x61, 0x6D,
      0x65, 0x3D, 0x61] Ybegin).map
        (fun m => markerGet (some m) sizeKey) = some [0x30]
    ∧ FormatUint 4294967296 ≠ [0x30] := by
  refine ⟨?_, List.length_replicate _ _, by decide, by decide⟩
  exact Decode_long_line 4294967296 _ _
    [([0x6E, 0x61, 0x6D, 0x65], [0x61]), ([0x73, 0x69, 0x7A, 0x65], [0x30]), ([0x6C, 0x69, 0x6E,
      0x65], [0x31, 0x32, 0x38])]
    [([0x63, 0x72, 0x63, 0x33, 0x32], [0x30, 0x30, 0x30, 0x30, 0x30, 0x30, 0x30, 0x30]), ([0x73,
      0x69, 0x7A, 0x65], [0x30])]
    (by decide) (by decide) (by decide) (by decide) (by decide) (by decide) (by decide)
    (by decide)

/-! ## Lines before the header and after the footer -/

theorem isNone_of_isSome {α : Type} (o : Option α) (h : o.isSome = true) : o.isNone = false := by
  cases o with
  | none => simp at h
  | some _ => rfl

/-- Once the header is set, what follows a line starting with "=yend" has no effect. -/
theorem decodeLoop_ignores_after_footer (X Y : List (List Nat)) (f : List Nat) (s : DecState)
    (hs : s.header.isSome = true) (hf : HasPrefix f Yend = true) :
    decodeLoop (X ++ f :: Y) s = decodeLoop (X ++ [f]) s := by
  have hfb := (HasPrefix_Yend f hf).1
  have hfp := (HasPrefix_Yend f hf).2
  induction X generalizing s with
  | nil =>
    have hnone := isNone_of_isSome _ hs
    simp only [List.nil_append, decodeLoop, hnone, hfb, hfp, hf, Bool.false_and,
      Bool.false_eq_true, if_false, if_true]
    by_cases hfoot : s.footer.isSome = true
    · simp only [hfoot, if_true]
      exact decodeLoop_after_footer Y s hs hfoot
    · simp only [hfoot, Bool.false_eq_true, if_false]
      cases hp : ParseMarkerLine f Yend with
      | none => rfl
      | some m => exact decodeLoop_after_footer Y { s with footer := some m } hs rfl
  | cons l X ih =>
    have hnone := isNone_of_isSome _ hs
    simp only [List.cons_append, decodeLoop, hnone, Bool.false_and, Bool.false_eq_true, if_false]
    by_cases hfoot : s.footer.isSome = true
    · simp only [hfoot, if_true]
      exact ih s hs
    · simp only [hfoot, Bool.false_eq_true, if_false]
      by_cases hb : HasPrefix l Ybegin = true
      · simp only [hb, if_true, hs]
      · simp only [hb, Bool.false_eq_true, if_false]
        by_cases hp : HasPrefix l Ypart = true
        · simp only [hp, if_true]
          exact ih s hs
        · simp only [hp, Bool.false_eq_true, if_false]
          by_cases he : HasPrefix l Yend = true
          · simp only [he, if_true]
            cases hpm : ParseMarkerLine l Yend with
            | none => rfl
            | some m => exact ih { s with footer := some m } hs
          · simp only [he, Bool.false_eq_true, if_false]
            exact ih (decodeBytes l s) (by rw [decodeBytes_header]; exact hs)

/-- Before the header is set, the same holds for a stream that has a header line before
the line starting with "=yend". -/
theorem decodeLoop_ignores_after_envelope (A B Y : List (List Nat)) (h f : List Nat)
    (s : DecState) (hs : s.header = none) (hfoot : s.footer = none)
    (hh : HasPrefix h Ybegin = true) (hf : HasPrefix f Yend = true) :
    decodeLoop (A ++ h :: (B ++ f :: Y)) s = decodeLoop (A ++ h :: (B ++ [f])) s := by
  obtain ⟨wr, n, esc, hd, ft⟩ := s
  simp only at hs hfoot
  subst hs hfoot
  induction A with
  | nil =>
    simp only [List.nil_append, decodeLoop, hh, Option.isNone_none, Bool.not_true,
      Bool.and_false, Bool.false_eq_true, if_false, Option.isSome_none, if_true]
    cases hp : ParseMarkerLine h Ybegin with
    | none => rfl
    | some m =>
      exact decodeLoop_ignores_after_footer B Y f
        { wr := wr, outLength := n, isEscape := esc, header := some m, footer := none } rfl hf
  | cons l A ih =>
    by_cases hb : HasPrefix l Ybegin = true
    · simp only [List.cons_append, decodeLoop, hb, Option.isNone_none, Bool.not_true,
        Bool.and_false, Bool.false_eq_true, if_false, Option.isSome_none, if_true]
      cases hp : ParseMarkerLine l Ybegin with
      | none => rfl
      | some m =>
        have := decodeLoop_ignores_after_footer (A ++ h :: B) Y f
          { wr := wr, outLength := n, isEscape := esc, header := some m, footer := none }
          rfl hf
        simpa [List.append_assoc] using this
    · simp only [List.cons_append, decodeLoop, hb, Option.isNone_none, Bool.not_false,
        Bool.and_self, if_true]
      exact ih

/-- Let the lines of a stream T be any lines, a line starting with "=ybegin", any
lines, and last a line starting with "=yend"; let P be lines none of which starts with
"=ybegin" and Q any lines.  On a stream whose lines are P, the lines of T and Q, Decode
does what it does on T. -/
theorem Decode_noise_outside_envelope (input inputT : List Nat) (P A B Q : List (List Nat))
    (h f : List Nat)
    (hT : ReadLines inputT = A ++ h :: (B ++ [f]))
    (hin : ReadLines input = P ++ (A ++ h :: (B ++ [f])) ++ Q)
    (hP : ∀ l ∈ P, HasPrefix l Ybegin = false)
    (hh : HasPrefix h Ybegin = true) (hf : HasPrefix f Yend = true) :
    Decode input = Decode inputT := by
  unfold Decode
  have hre : P ++ (A ++ h :: (B ++ [f])) ++ Q = P ++ (A ++ h :: (B ++ f :: Q)) := by
    simp [List.append_assoc]
  rw [hin, hT, hre, decodeLoop_before_header P _ initialState rfl hP,
    decodeLoop_ignores_after_envelope A B Q h f initialState rfl rfl hh hf]

/-! ## The crc32 attribute of the footer -/

theorem Split_append (sep : Nat) (a b : List Nat) :
    Split sep (a ++ sep :: b) = Split sep a ++ Split sep b := by
  induction a with
  | nil => simp [Split]
  | cons y a ih =>
    by_cases hy : y = sep
    · simp [Split, hy, ih]
    · obtain ⟨p, ps, hp⟩ := List.exists_cons_of_ne_nil (Split_ne_nil sep a)
      simp [Split, hy, ih, hp]

theorem parseEntries_append (a b : List (List Nat)) (m : Marker) :
    parseEntries (a ++ b) m = (parseEntries a m).bind (parseEntries b) := by
  induction a generalizing m with
  | nil => rfl
  | cons e a ih =>
    simp only [List.cons_append, parseEntries]
    split
    · exact ih _
    · rfl

theorem markerGet_markerSet_ne (m : Marker) (k v key : List Nat) (hk : k ≠ key) :
    markerGet (some (markerSet m k v)) key = markerGet (some m) key := by
  have hbeq : (k == key) = false := by simpa using hk
  have hfind : ∀ es : Marker,
      List.find? (fun e => e.1 == key) (List.filter (fun e => e.1 != k) es)
        = List.find? (fun e => e.1 == key) es := by
    intro es
    induction es with
    | nil => rfl
    | cons e es ih =>
      by_cases he : e.1 = k
      · have h1 : (e.1 == key) = false := by rw [he]; exact hbeq
        simp [List.filter_cons, List.find?_cons, he, h1, hbeq, ih]
      · have h2 : (e.1 != k) = true := by simpa using he
        simp only [List.filter_cons, h2, if_true, List.find?_cons, ih]
  simp only [markerGet, markerSet, List.find?_cons, hbeq, hfind]

/-- A footer line whose last attribute is crc32: what ParseMarkerLine makes of it is what
it makes of the attributes before, with one more assignment to the key crc32. -/
theorem ParseMarkerLine_crc32_last (x : Nat) (X V : List Nat)
    (hx : x ∉ spaceRunes.flatten) (hV : 0x20 ∉ V) :
    ∃ p, ParseMarkerLine (Yend ++ 0x20 :: x :: X ++ 0x20 :: [0x63, 0x72, 0x63, 0x33, 0x32, 0x3D]
      ++ V) Yend
      = (parseEntries (Split 0x20 (x :: X)) []).map (fun m => markerSet m [0x63, 0x72, 0x63, 0x33,
        0x32] p) := by
  obtain ⟨T1, hT1, htrim⟩ := TrimSpace_fields x (X ++ 0x20 :: [0x63, 0x72, 0x63, 0x33, 0x32]) V hx
  have hT1s : (0x20 : Nat) ∉ T1 := fun h => hV (hT1.subset h)
  obtain ⟨p, ps, hp⟩ := List.exists_cons_of_ne_nil (Split_ne_nil 0x3D T1)
  refine ⟨p, ?_⟩
  unfold ParseMarkerLine
  have hline : Yend ++ 0x20 :: x :: X ++ 0x20 :: [0x63, 0x72, 0x63, 0x33, 0x32, 0x3D] ++ V
      = Yend ++ (0x20 :: x :: (X ++ 0x20 :: [0x63, 0x72, 0x63, 0x33, 0x32]) ++ 0x3D :: V) := by
    simp [List.append_assoc]
  rw [hline, TrimPrefix_append, htrim]
  have hsplit : x :: (X ++ 0x20 :: [0x63, 0x72, 0x63, 0x33, 0x32]) ++ 0x3D :: T1
      = (x :: X) ++ 0x20 :: ([0x63, 0x72, 0x63, 0x33, 0x32, 0x3D] ++ T1) := by
    simp [List.append_assoc]
  have e2 : Split 0x3D ([0x63, 0x72, 0x63, 0x33, 0x32, 0x3D] ++ T1) = [0x63, 0x72, 0x63, 0x33,
    0x32] :: p :: ps := by
    have := Split_append_sep 0x3D [0x63, 0x72, 0x63, 0x33, 0x32] T1 (by decide)
    rw [hp] at this
    simpa using this
  rw [hsplit, Split_append, Split_no_sep 0x20 ([0x63, 0x72, 0x63, 0x33, 0x32, 0x3D] ++ T1) (by
    simp [hT1s]),
    parseEntries_append]
  cases parseEntries (Split 0x20 (x :: X)) [] with
  | none => rfl
  | some m =>
    show parseEntries [[0x63, 0x72, 0x63, 0x33, 0x32, 0x3D] ++ T1] m = some _
    simp only [parseEntries, e2]

/-- Two streams that differ in one line starting with "=yend", parsed in both or in
neither, to markers with the same size: the loop of Decode ends in states that the
validation does not tell apart. -/
theorem decodeLoop_footer_size_only (L R : List (List Nat)) (f1 f2 : List Nat) (s : DecState)
    (hf1 : HasPrefix f1 Yend = true) (hf2 : HasPrefix f2 Yend = true)
    (hrel : (ParseMarkerLine f1 Yend).map (fun m => markerGet (some m) sizeKey)
      = (ParseMarkerLine f2 Yend).map (fun m => markerGet (some m) sizeKey)) :
    (decodeLoop (L ++ f1 :: R) s).map validate = (decodeLoop (L ++ f2 :: R) s).map validate := by
  induction L generalizing s with
  | nil =>
    simp only [List.nil_append, decodeLoop, (HasPrefix_Yend f1 hf1).1, (HasPrefix_Yend f1 hf1).2,
      (HasPrefix_Yend f2 hf2).1, (HasPrefix_Yend f2 hf2).2, hf1, hf2, Bool.not_false,
      Bool.and_true, Bool.false_eq_true, if_false, if_true]
    by_cases hnone : s.header.isNone = true
    · simp only [hnone, if_true]
    · have hsome : s.header.isSome = true := by
        cases h : s.header with
        | none => simp [h] at hnone
        | some _ => rfl
      simp only [hnone, Bool.false_eq_true, if_false]
      by_cases hfoot : s.footer.isSome = true
      · simp only [hfoot, if_true]
      · simp only [hfoot, Bool.false_eq_true, if_false]
        cases h1 : ParseMarkerLine f1 Yend with
        | none =>
          cases h2 : ParseMarkerLine f2 Yend with
          | none => rfl
          | some m2 => simp [h1, h2] at hrel
        | some m1 =>
          cases h2 : ParseMarkerLine f2 Yend with
          | none => simp [h1, h2] at hrel
          | some m2 =>
            have hsz : markerGet (some m1) sizeKey = markerGet (some m2) sizeKey := by
              simpa [h1, h2] using hrel
            simp only [decodeLoop_after_footer R { s with footer := some m1 } hsome rfl,
              decodeLoop_after_footer R { s with footer := some m2 } hsome rfl,
              Option.map_some', validate, hsz]
  | cons l L ih =>
    simp only [List.cons_append, decodeLoop]
    by_cases hnone : (s.header.isNone && !HasPrefix l Ybegin) = true
    · simp only [hnone, if_true]
      exact ih s
    · simp only [hnone, Bool.false_eq_true, if_false]
      by_cases hfoot : s.footer.isSome = true
      · simp only [hfoot, if_true]
        exact ih s
      · simp only [hfoot, Bool.false_eq_true, if_false]
        by_cases hb : HasPrefix l Ybegin = true
        · simp only [hb, if_true]
          by_cases hhd : s.header.isSome = true
          · simp only [hhd, if_true]
          · simp only [hhd, Bool.false_eq_true, if_false]
            cases hpm : ParseMarkerLine l Ybegin with
            | none => rfl
            | some m => exact ih _
        · simp only [hb, Bool.false_eq_true, if_false]
          by_cases hp : HasPrefix l Ypart = true
          · simp only [hp, if_true]
            exact ih s
          · simp only [hp, Bool.false_eq_true, if_false]
            by_cases he : HasPrefix l Yend = true
            · simp only [he, if_true]
              by_cases hhd : s.header.isNone = true
              · simp only [hhd, if_true]
              · simp only [hhd, Bool.false_eq_true, if_false]
                cases hpm : ParseMarkerLine l Yend with
                | none => rfl
                | some m => exact ih _
            · simp only [he, Bool.false_eq_true, if_false]
              exact ih _

theorem Decode_eq_map (input : List Nat) :
    Decode input = (decodeLoop (ReadLines input) initialState).map validate := by
  unfold Decode
  cases decodeLoop (ReadLines input) initialState <;> rfl

/-- Two streams that differ only in the value of a last attribute crc32 of one line
"=yend <attributes> crc32=<value>": Decode does the same on both. -/
theorem Decode_crc32_last (input1 input2 : List Nat) (L R : List (List Nat))
    (x : Nat) (X V1 V2 : List Nat)
    (h1 : ReadLines input1 = L ++ (Yend ++ 0x20 :: x :: X ++ 0x20 :: [0x63, 0x72, 0x63, 0x33,
      0x32, 0x3D] ++ V1) :: R)
    (h2 : ReadLines input2 = L ++ (Yend ++ 0x20 :: x :: X ++ 0x20 :: [0x63, 0x72, 0x63, 0x33,
      0x32, 0x3D] ++ V2) :: R)
    (hx : x ∉ spaceRunes.flatten) (hV1 : 0x20 ∉ V1) (hV2 : 0x20 ∉ V2) :
    Decode input1 = Decode input2 := by
  obtain ⟨p1, e1⟩ := ParseMarkerLine_crc32_last x X V1 hx hV1
  obtain ⟨p2, e2⟩ := ParseMarkerLine_crc32_last x X V2 hx hV2
  have hpre : ∀ V : List Nat,
      HasPrefix (Yend ++ 0x20 :: x :: X ++ 0x20 :: [0x63, 0x72, 0x63, 0x33, 0x32, 0x3D] ++ V) Yend
        = true := by
    intro V
    simp [HasPrefix, List.isPrefixOf_iff_prefix, List.append_assoc]
  rw [Decode_eq_map, Decode_eq_map, h1, h2]
  apply decodeLoop_footer_size_only L R _ _ initialState (hpre V1) (hpre V2)
  rw [e1, e2]
  cases parseEntries (Split 0x20 (x :: X)) [] with
  | none => rfl
  | some m =>
    simp only [Option.map_some']
    rw [markerGet_markerSet_ne m _ p1 sizeKey (by decide),
      markerGet_markerSet_ne m _ p2 sizeKey (by decide)]

theorem markerGet_markerSet_eq (m : Marker) (k v : List Nat) :
    markerGet (some (markerSet m k v)) k = v := by
  simp [markerGet, markerSet]

/-- Two maps that agree on every key but crc32 still do after the same tokens were
parsed into both, and the tokens are parsed into both or into neither. -/
theorem parseEntries_agree (ts : List (List Nat)) (m m2 : Marker)
    (h : ∀ key, key ≠ [0x63, 0x72, 0x63, 0x33, 0x32] → markerGet (some m) key = markerGet (some
      m2) key) :
    (parseEntries ts m = none ∧ parseEntries ts m2 = none)
    ∨ ∃ r r2, parseEntries ts m = some r ∧ parseEntries ts m2 = some r2
      ∧ ∀ key, key ≠ [0x63, 0x72, 0x63, 0x33, 0x32] → markerGet (some r) key = markerGet (some r2)
        key := by
  induction ts generalizing m m2 with
  | nil => exact Or.inr ⟨m, m2, rfl, rfl, h⟩
  | cons e ts ih =>
    simp only [parseEntries]
    split
    · rename_i p0 p1 tl _
      apply ih
      intro key hkey
      by_cases hk : p0 = key
      · subst hk
        rw [markerGet_markerSet_eq, markerGet_markerSet_eq]
      · rw [markerGet_markerSet_ne _ _ _ _ hk, markerGet_markerSet_ne _ _ _ _ hk]
        exact h key hkey
    · exact Or.inl ⟨rfl, rfl⟩

/-- Two lists of tokens that differ only in the value of one token crc32=<value>: they
are parsed both or neither, to maps with the same size. -/
theorem parseEntries_crc32_value (ts ts2 : List (List Nat)) (V1 V2 : List Nat) :
    (parseEntries (ts ++ ([0x63, 0x72, 0x63, 0x33, 0x32, 0x3D] ++ V1) :: ts2) []).map (fun m =>
      markerGet (some m) sizeKey)
      = (parseEntries (ts ++ ([0x63, 0x72, 0x63, 0x33, 0x32, 0x3D] ++ V2) :: ts2) []).map
          (fun m => markerGet (some m) sizeKey) := by
  have hsplit : ∀ V : List Nat, ∃ p ps, Split 0x3D ([0x63, 0x72, 0x63, 0x33, 0x32, 0x3D] ++ V) =
    [0x63, 0x72, 0x63, 0x33, 0x32] :: p :: ps := by
    intro V
    obtain ⟨p, ps, hp⟩ := List.exists_cons_of_ne_nil (Split_ne_nil 0x3D V)
    have := Split_append_sep 0x3D [0x63, 0x72, 0x63, 0x33, 0x32] V (by decide)
    rw [hp] at this
    exact ⟨p, ps, by simpa using this⟩
  obtain ⟨p1, ps1, e1⟩ := hsplit V1
  obtain ⟨p2, ps2, e2⟩ := hsplit V2
  rw [parseEntries_append, parseEntries_append]
  cases parseEntries ts [] with
  | none => rfl
  | some m =>
    show (parseEntries (([0x63, 0x72, 0x63, 0x33, 0x32, 0x3D] ++ V1) :: ts2) m).map _
      = (parseEntries (([0x63, 0x72, 0x63, 0x33, 0x32, 0x3D] ++ V2) :: ts2) m).map _
    simp only [parseEntries, e1, e2]
    have hagree : ∀ key, key ≠ [0x63, 0x72, 0x63, 0x33, 0x32] →
        markerGet (some (markerSet m [0x63, 0x72, 0x63, 0x33, 0x32] p1)) key
          = markerGet (some (markerSet m [0x63, 0x72, 0x63, 0x33, 0x32] p2)) key := by
      intro key hkey
      rw [markerGet_markerSet_ne _ _ _ _ (Ne.symm hkey),
        markerGet_markerSet_ne _ _ _ _ (Ne.symm hkey)]
    rcases parseEntries_agree ts2 _ _ hagree with ⟨hn1, hn2⟩ | ⟨r, r2, hr, hr2, hrr⟩
    · rw [hn1, hn2]
    · rw [hr, hr2]
      simp only [Option.map_some']
      rw [hrr sizeKey (by decide)]

/-- Two streams whose lines are the same but for one line starting with "=yend",
whose attributes, as ParseMarkerLine splits them, are the same in both but for the text
after "crc32=" in one of them: Decode does the same on both.  In particular the stream
"=ybegin line=128 size=1 name=a" CRLF "k" CRLF "=yend size=1 crc32=00000000" CRLF
decodes to the byte "A" without error, though the CRC32 of "A" is d3d99e8b. -/
theorem Decode_crc32_value (input1 input2 : List Nat) (L R : List (List Nat))
    (f1 f2 : List Nat) (ts ts2 : List (List Nat)) (V1 V2 : List Nat)
    (h1 : ReadLines input1 = L ++ f1 :: R) (h2 : ReadLines input2 = L ++ f2 :: R)
    (hf1 : HasPrefix f1 Yend = true) (hf2 : HasPrefix f2 Yend = true)
    (ht1 : Split 0x20 (TrimSpace (TrimPrefix f1 Yend)) = ts ++ ([0x63, 0x72, 0x63, 0x33, 0x32,
      0x3D] ++ V1) :: ts2)
    (ht2 : Split 0x20 (TrimSpace (TrimPrefix f2 Yend)) = ts ++ ([0x63, 0x72, 0x63, 0x33, 0x32,
      0x3D] ++ V2) :: ts2) :
    Decode input1 = Decode input2
    ∧ Decode [0x3D, 0x79, 0x62, 0x65, 0x67, 0x69, 0x6E, 0x20, 0x6C, 0x69, 0x6E, 0x65, 0x3D, 0x31,
      0x32, 0x38, 0x20, 0x73, 0x69, 0x7A, 0x65, 0x3D, 0x31, 0x20, 0x6E, 0x61, 0x6D, 0x65, 0x3D,
      0x61, 0x0D, 0x0A, 0x6B, 0x0D, 0x0A, 0x3D, 0x79, 0x65, 0x6E, 0x64, 0x20, 0x73, 0x69, 0x7A,
      0x65, 0x3D, 0x31, 0x20, 0x63, 0x72, 0x63, 0x33, 0x32, 0x3D, 0x30, 0x30, 0x30, 0x30, 0x30,
      0x30, 0x30, 0x30, 0x0D, 0x0A]
      = some { out := [0x41], err := none }
    ∧ formatHex08 (ChecksumIEEE [0x41]) = [0x64, 0x33, 0x64, 0x39, 0x39, 0x65, 0x38, 0x62] := by
  refine ⟨?_, by decide, by decide⟩
  rw [Decode_eq_map, Decode_eq_map, h1, h2]
  apply decodeLoop_footer_size_only L R f1 f2 initialState hf1 hf2
  unfold ParseMarkerLine
  rw [ht1, ht2]
  exact parseEntries_crc32_value ts ts2 V1 V2

/-! ## The course of the loop of Decode on any stream -/

theorem exists_first_failing {α : Type} (p : α → Bool) (l : List α) :
    (∀ x ∈ l, p x = true)
    ∨ ∃ pre x rest, l = pre ++ x :: rest ∧ (∀ y ∈ pre, p y = true) ∧ p x = false := by
  induction l with
  | nil => left; simp
  | cons a l ih =>
    by_cases ha : p a = true
    · rcases ih with h | ⟨pre, x, rest, hl, hpre, hx⟩
      · left
        intro y hy
        rcases List.mem_cons.1 hy with rfl | hy
        · exact ha
        · exact h y hy
      · right
        refine ⟨a :: pre, x, rest, by simp [hl], ?_, hx⟩
        intro y hy
        rcases List.mem_cons.1 hy with rfl | hy
        · exact ha
        · exact hpre y hy
    · right
      exact ⟨[], a, l, rfl, by simp, by simpa using ha⟩

/-- From the start of the stream to its first header line. -/
theorem decodeLoop_to_header (lines : List (List Nat)) :
    ((∀ l ∈ lines, HasPrefix l Ybegin = false)
      ∧ decodeLoop lines initialState = some initialState)
    ∨ ∃ pre h rest, lines = pre ++ h :: rest
      ∧ (∀ l ∈ pre, HasPrefix l Ybegin = false) ∧ HasPrefix h Ybegin = true
      ∧ ((ParseMarkerLine h Ybegin = none ∧ decodeLoop lines initialState = none)
        ∨ ∃ m1, ParseMarkerLine h Ybegin = some m1
          ∧ decodeLoop lines initialState
            = decodeLoop rest { initialState with header := some m1 }) := by
  rcases exists_first_failing (fun l => !HasPrefix l Ybegin) lines with
    hall | ⟨pre, h, rest, hl, hpre, hh⟩
  · left
    have hall2 : ∀ l ∈ lines, HasPrefix l Ybegin = false := fun l hl => by
      simpa using hall l hl
    refine ⟨hall2, ?_⟩
    have := decodeLoop_before_header lines [] initialState rfl hall2
    simpa [decodeLoop] using this
  · right
    have hpre2 : ∀ l ∈ pre, HasPrefix l Ybegin = false := fun l hl => by
      simpa using hpre l hl
    have hh2 : HasPrefix h Ybegin = true := by simpa using hh
    refine ⟨pre, h, rest, hl, hpre2, hh2, ?_⟩
    rw [hl, decodeLoop_before_header pre _ initialState rfl hpre2]
    cases hp : ParseMarkerLine h Ybegin with
    | none =>
      left
      refine ⟨rfl, ?_⟩
      simp [decodeLoop, initialState, hh2, hp]
    | some m1 =>
      right
      exact ⟨m1, rfl, decodeLoop_header h rest initialState m1 rfl rfl hh2 hp⟩

/-- From the header line on: the payload lines, then the end of the stream, a second
header line, or a footer line. -/
theorem decodeLoop_from_header (rest : List (List Nat)) (s : DecState)
    (hs : s.header.isSome = true) (hf : s.footer = none) :
    ((∀ l ∈ rest, HasPrefix l Ybegin = false ∧ HasPrefix l Yend = false)
      ∧ decodeLoop rest s = some (decodeBytes (payloadOf rest) s))
    ∨ ∃ mid g rest4, rest = mid ++ g :: rest4
      ∧ (∀ l ∈ mid, HasPrefix l Ybegin = false ∧ HasPrefix l Yend = false)
      ∧ ((HasPrefix g Ybegin = true
          ∧ decodeLoop rest s = some (decodeBytes (payloadOf mid) s))
        ∨ (HasPrefix g Ybegin = false ∧ HasPrefix g Yend = true
          ∧ ParseMarkerLine g Yend = none ∧ decodeLoop rest s = none)
        ∨ (HasPrefix g Ybegin = false ∧ HasPrefix g Yend = true
          ∧ ∃ m2, ParseMarkerLine g Yend = some m2
            ∧ decodeLoop rest s
              = some { decodeBytes (payloadOf mid) s with footer := some m2 })) := by
  rcases exists_first_failing (fun l => !HasPrefix l Ybegin && !HasPrefix l Yend) rest with
    hall | ⟨mid, g, rest4, hl, hmid, hg⟩
  · left
    have hall2 : ∀ l ∈ rest, HasPrefix l Ybegin = false ∧ HasPrefix l Yend = false :=
      fun l hl => by simpa using hall l hl
    refine ⟨hall2, ?_⟩
    have := decodeLoop_payload rest [] s hs hf hall2
    simpa [decodeLoop] using this
  · right
    have hmid2 : ∀ l ∈ mid, HasPrefix l Ybegin = false ∧ HasPrefix l Yend = false :=
      fun l hl => by simpa using hmid l hl
    refine ⟨mid, g, rest4, hl, hmid2, ?_⟩
    have hs2 : (decodeBytes (payloadOf mid) s).header.isSome = true := by
      rw [decodeBytes_header]; exact hs
    have hf2 : (decodeBytes (payloadOf mid) s).footer = none := by
      rw [decodeBytes_footer]; exact hf
    rw [hl, decodeLoop_payload mid _ s hs hf hmid2]
    by_cases hb : HasPrefix g Ybegin = true
    · left
      exact ⟨hb, decodeLoop_second_header g rest4 _ hs2 hf2 hb⟩
    · have hb2 : HasPrefix g Ybegin = false := by simpa using hb
      have he : HasPrefix g Yend = true := by
        simp only [hb2, Bool.not_false, Bool.true_and, Bool.not_eq_false'] at hg
        exact hg
      right
      cases hp : ParseMarkerLine g Yend with
      | none =>
        left
        refine ⟨hb2, he, rfl, ?_⟩
        simp [decodeLoop, isNone_of_isSome _ hs2, hf2, hb2, (HasPrefix_Yend g he).2, he, hp]
      | some m2 =>
        right
        refine ⟨hb2, he, m2, rfl, ?_⟩
        rw [decodeLoop_footer g rest4 _ m2 hs2 hf2 hb2 (HasPrefix_Yend g he).2 he hp]
        exact decodeLoop_after_footer rest4
          { decodeBytes (payloadOf mid) s with footer := some m2 } hs2 rfl

theorem streamPayload_no_header (lines : List (List Nat))
    (h : ∀ l ∈ lines, HasPrefix l Ybegin = false) : streamPayload lines = [] := by
  have : lines.dropWhile (fun l => !HasPrefix l Ybegin) = [] := by
    rw [List.dropWhile_eq_nil_iff]
    intro l hl
    simp [h l hl]
  simp [streamPayload, this]

theorem streamPayload_header (pre rest : List (List Nat)) (h : List Nat)
    (hpre : ∀ l ∈ pre, HasPrefix l Ybegin = false) (hh : HasPrefix h Ybegin = true) :
    streamPayload (pre ++ h :: rest)
      = (rest.takeWhile (fun l => !HasPrefix l Ybegin && !HasPrefix l Yend)).filter
          (fun l => !HasPrefix l Ypart) := by
  have : (pre ++ h :: rest).dropWhile (fun l => !HasPrefix l Ybegin) = h :: rest := by
    rw [List.dropWhile_append_of_pos (fun l hl => by simp [hpre l hl])]
    simp [List.dropWhile_cons, hh]
  simp [streamPayload, this]

theorem streamPayload_to_end (pre rest : List (List Nat)) (h : List Nat)
    (hpre : ∀ l ∈ pre, HasPrefix l Ybegin = false) (hh : HasPrefix h Ybegin = true)
    (hrest : ∀ l ∈ rest, HasPrefix l Ybegin = false ∧ HasPrefix l Yend = false) :
    (streamPayload (pre ++ h :: rest)).flatten = payloadOf rest := by
  rw [streamPayload_header pre rest h hpre hh, List.takeWhile_eq_self_iff.2]
  · rfl
  · intro l hl
    simp [hrest l hl]

theorem streamPayload_to_marker (pre mid rest4 : List (List Nat)) (h g : List Nat)
    (hpre : ∀ l ∈ pre, HasPrefix l Ybegin = false) (hh : HasPrefix h Ybegin = true)
    (hmid : ∀ l ∈ mid, HasPrefix l Ybegin = false ∧ HasPrefix l Yend = false)
    (hg : HasPrefix g Ybegin = true ∨ HasPrefix g Yend = true) :
    (streamPayload (pre ++ h :: (mid ++ g :: rest4))).flatten = payloadOf mid := by
  rw [streamPayload_header pre _ h hpre hh,
    List.takeWhile_append_of_pos (fun l hl => by simp [hmid l hl])]
  have hstop : (g :: rest4).takeWhile (fun l => !HasPrefix l Ybegin && !HasPrefix l Yend) = [] := by
    rcases hg with hg | hg <;> simp [List.takeWhile_cons, hg]
  rw [hstop, List.append_nil]
  rfl

/-- The loop of Decode on any stream: it ends with the payload lines decoded, or
ParseMarkerLine panics on a header line or a footer line. -/
theorem decodeLoop_outcome (lines : List (List Nat)) :
    (∃ s, decodeLoop lines initialState = some s
      ∧ s.wr = decodePayload (streamPayload lines).flatten)
    ∨ (decodeLoop lines initialState = none
      ∧ ∃ l ∈ lines, (HasPrefix l Ybegin = true ∧ ParseMarkerLine l Ybegin = none)
        ∨ (HasPrefix l Yend = true ∧ ParseMarkerLine l Yend = none)) := by
  rcases decodeLoop_to_header lines with
    ⟨hall, hloop⟩ | ⟨pre, h, rest, hl, hpre, hh, ⟨hp, hloop⟩ | ⟨m1, hp, hloop⟩⟩
  · left
    exact ⟨initialState, hloop, by rw [streamPayload_no_header lines hall]; rfl⟩
  · right
    exact ⟨hloop, h, by simp [hl], Or.inl ⟨hh, hp⟩⟩
  · rcases decodeLoop_from_header rest { initialState with header := some m1 } rfl rfl with
      ⟨hall, hloop2⟩ | ⟨mid, g, rest4, hl2, hmid, ⟨hg, hloop2⟩ | ⟨_, hg, hp2, hloop2⟩ |
        ⟨_, hg, m2, hp2, hloop2⟩⟩
    · left
      refine ⟨_, hloop.trans hloop2, ?_⟩
      rw [hl, streamPayload_to_end pre rest h hpre hh hall]
      exact decodeBytes_wr_initial _ _
    · left
      refine ⟨_, hloop.trans hloop2, ?_⟩
      rw [hl, hl2, streamPayload_to_marker pre mid rest4 h g hpre hh hmid (Or.inl hg)]
      exact decodeBytes_wr_initial _ _
    · right
      exact ⟨hloop.trans hloop2, g, by simp [hl, hl2], Or.inr ⟨hg, hp2⟩⟩
    · left
      refine ⟨_, hloop.trans hloop2, ?_⟩
      rw [hl, hl2, streamPayload_to_marker pre mid rest4 h g hpre hh hmid (Or.inr hg)]
      exact decodeBytes_wr_initial _ _

theorem validate_out (s : DecState) : ∃ e, validate s = { out := s.wr, err := e } := by
  unfold validate
  split
  · exact ⟨_, rfl⟩
  · split
    · exact ⟨_, rfl⟩
    · exact ⟨_, rfl⟩

/-- On the lines that ReadLine returns, Decode either panics in ParseMarkerLine, on a
line starting with "=ybegin" or "=yend", or returns having written the reverse byte
transform applied once, with its single escape-pending flag, to the concatenation of all
payload lines in order.  So on "=ybegin line=128 size=3 name=a" CRLF "k=" CRLF "Ak" CRLF
"=yend size=3 crc32=00000000" CRLF the "A" that starts the second payload line is
decoded as the escaped byte, (0x41 - 64) mod 256 = 0x01. -/
theorem Decode_writes_streamPayload (input : List Nat) :
    ((∃ e, Decode input =
        some { out := decodePayload (streamPayload (ReadLines input)).flatten, err := e })
      ∨ (Decode input = none
        ∧ ∃ l ∈ ReadLines input, (HasPrefix l Ybegin = true ∧ ParseMarkerLine l Ybegin = none)
          ∨ (HasPrefix l Yend = true ∧ ParseMarkerLine l Yend = none)))
    ∧ streamPayload (ReadLines [0x3D, 0x79, 0x62, 0x65, 0x67, 0x69, 0x6E, 0x20, 0x6C, 0x69, 0x6E,
      0x65, 0x3D, 0x31, 0x32, 0x38, 0x20, 0x73, 0x69, 0x7A, 0x65, 0x3D, 0x33, 0x20, 0x6E, 0x61,
      0x6D, 0x65, 0x3D, 0x61, 0x0D, 0x0A, 0x6B, 0x3D, 0x0D, 0x0A, 0x41, 0x6B, 0x0D, 0x0A, 0x3D,
      0x79, 0x65, 0x6E, 0x64, 0x20, 0x73, 0x69, 0x7A, 0x65, 0x3D, 0x33, 0x20, 0x63, 0x72, 0x63,
      0x33, 0x32, 0x3D, 0x30, 0x30, 0x30, 0x30, 0x30, 0x30, 0x30, 0x30, 0x0D, 0x0A])
      = [[0x6B, 0x3D], [0x41, 0x6B]]
    ∧ Decode [0x3D, 0x79, 0x62, 0x65, 0x67, 0x69, 0x6E, 0x20, 0x6C, 0x69, 0x6E, 0x65, 0x3D, 0x31,
      0x32, 0x38, 0x20, 0x73, 0x69, 0x7A, 0x65, 0x3D, 0x33, 0x20, 0x6E, 0x61, 0x6D, 0x65, 0x3D,
      0x61, 0x0D, 0x0A, 0x6B, 0x3D, 0x0D, 0x0A, 0x41, 0x6B, 0x0D, 0x0A, 0x3D, 0x79, 0x65, 0x6E,
      0x64, 0x20, 0x73, 0x69, 0x7A, 0x65, 0x3D, 0x33, 0x20, 0x63, 0x72, 0x63, 0x33, 0x32, 0x3D,
      0x30, 0x30, 0x30, 0x30, 0x30, 0x30, 0x30, 0x30, 0x0D, 0x0A]
      = some { out := [0x41, 0x01, 0x41], err := none } := by
  refine ⟨?_, by decide, by decide⟩
  rw [Decode_eq_map]
  rcases decodeLoop_outcome (ReadLines input) with ⟨s, hs, hwr⟩ | ⟨hnone, hl⟩
  · left
    obtain ⟨e, he⟩ := validate_out s
    exact ⟨e, by rw [hs, Option.map_some', he, hwr]⟩
  · right
    exact ⟨by rw [hnone]; rfl, hl⟩

/-! ## What a call of Decode without error needs -/

theorem decodeBytes_outLength (l : List Nat) (s : DecState)
    (hs : s.outLength = s.wr.length % 4294967296) :
    (decodeBytes l s).outLength = (decodeBytes l s).wr.length % 4294967296 := by
  induction l generalizing s with
  | nil => exact hs
  | cons b l ih =>
    simp only [decodeBytes]
    split
    · exact ih _ hs
    · apply ih
      simp only [List.length_append, List.length_singleton, hs, Nat.mod_add_mod]

theorem validate_ok (s : DecState) (out : List Nat)
    (h : validate s = { out := out, err := none }) :
    out = s.wr ∧ markerGet s.header sizeKey = markerGet s.footer sizeKey
      ∧ markerGet s.header sizeKey = FormatUint s.outLength := by
  unfold validate at h
  split at h
  · simp at h
  · rename_i h1
    split at h
    · simp at h
    · rename_i h2
      simp only [DecodeResult.mk.injEq, and_true] at h
      exact ⟨h.symm, by simpa using h1, by simpa using h2⟩

theorem markerGet_none (k : List Nat) : markerGet none k = [] := rfl

theorem ReadLines_long_line (n : Nat) (h f : List Nat) (hlfh : 0x0A ∉ h) (hlff : 0x0A ∉ f) :
    ReadLines (h ++ CRLF ++ List.replicate n 0x6B ++ CRLF ++ f ++ CRLF)
      = [h, List.replicate n 0x6B, f] := by
  have htext : h ++ CRLF ++ List.replicate n 0x6B ++ CRLF ++ f ++ CRLF
      = joinLines [h, List.replicate n 0x6B, f] := by
    simp [joinLines, List.append_assoc]
  rw [htext]
  apply readLinesFrom_joinLines
  intro l hl
  simp only [List.mem_cons, List.not_mem_nil, or_false] at hl
  rcases hl with rfl | rfl | rfl
  · exact hlfh
  · intro hm
    have := (List.mem_replicate.1 hm).2
    omega
  · exact hlff

/-- C20 (the code at inputs of the claim): the stream "=ybegin line=128 size=1 name=a"
CRLF, a payload line of 4294967297 bytes "k", CRLF, "=yend size=1 crc32=00000000" CRLF
has these three lines; Decode returns no error on it and writes 4294967297 bytes, while
the size attribute of its header line and of its footer line is "1", not the decimal
"4294967297".  And on "=ybegin line=128 size=1 name=my file.bin" CRLF "k" CRLF, a stream
cut off before its footer, Decode returns no error either: it panics. -/
theorem C20_success_with_other_size :
    ReadLines ([0x3D, 0x79, 0x62, 0x65, 0x67, 0x69, 0x6E, 0x20, 0x6C, 0x69, 0x6E, 0x65, 0x3D,
      0x31, 0x32, 0x38, 0x20, 0x73, 0x69, 0x7A, 0x65, 0x3D, 0x31, 0x20, 0x6E, 0x61, 0x6D, 0x65,
      0x3D, 0x61] ++ CRLF ++ List.replicate 4294967297 0x6B
        ++ CRLF ++ [0x3D, 0x79, 0x65, 0x6E, 0x64, 0x20, 0x73, 0x69, 0x7A, 0x65, 0x3D, 0x31, 0x20,
          0x63, 0x72, 0x63, 0x33, 0x32, 0x3D, 0x30, 0x30, 0x30, 0x30, 0x30, 0x30, 0x30, 0x30] ++
          CRLF)
      = [[0x3D, 0x79, 0x62, 0x65, 0x67, 0x69, 0x6E, 0x20, 0x6C, 0x69, 0x6E, 0x65, 0x3D, 0x31,
        0x32, 0x38, 0x20, 0x73, 0x69, 0x7A, 0x65, 0x3D, 0x31, 0x20, 0x6E, 0x61, 0x6D, 0x65, 0x3D,
        0x61], List.replicate 4294967297 0x6B,
          [0x3D, 0x79, 0x65, 0x6E, 0x64, 0x20, 0x73, 0x69, 0x7A, 0x65, 0x3D, 0x31, 0x20, 0x63,
            0x72, 0x63, 0x33, 0x32, 0x3D, 0x30, 0x30, 0x30, 0x30, 0x30, 0x30, 0x30, 0x30]]
    ∧ Decode ([0x3D, 0x79, 0x62, 0x65, 0x67, 0x69, 0x6E, 0x20, 0x6C, 0x69, 0x6E, 0x65, 0x3D, 0x31,
      0x32, 0x38, 0x20, 0x73, 0x69, 0x7A, 0x65, 0x3D, 0x31, 0x20, 0x6E, 0x61, 0x6D, 0x65, 0x3D,
      0x61] ++ CRLF ++ List.replicate 4294967297 0x6B
        ++ CRLF ++ [0x3D, 0x79, 0x65, 0x6E, 0x64, 0x20, 0x73, 0x69, 0x7A, 0x65, 0x3D, 0x31, 0x20,
          0x63, 0x72, 0x63, 0x33, 0x32, 0x3D, 0x30, 0x30, 0x30, 0x30, 0x30, 0x30, 0x30, 0x30] ++
          CRLF)
      = some { out := List.replicate 4294967297 0x41, err := none }
    ∧ (List.replicate 4294967297 0x41).length = 4294967297
    ∧ (ParseMarkerLine [0x3D, 0x79, 0x62, 0x65, 0x67, 0x69, 0x6E, 0x20, 0x6C, 0x69, 0x6E, 0x65,
      0x3D, 0x31, 0x32, 0x38, 0x20, 0x73, 0x69, 0x7A, 0x65, 0x3D, 0x31, 0x20, 0x6E, 0x61, 0x6D,
      0x65, 0x3D, 0x61] Ybegin).map
        (fun m => markerGet (some m) sizeKey) = some [0x31]
    ∧ (ParseMarkerLine [0x3D, 0x79, 0x65, 0x6E, 0x64, 0x20, 0x73, 0x69, 0x7A, 0x65, 0x3D, 0x31,
      0x20, 0x63, 0x72, 0x63, 0x33, 0x32, 0x3D, 0x30, 0x30, 0x30, 0x30, 0x30, 0x30, 0x30, 0x30]
      Yend).map
        (fun m => markerGet (some m) sizeKey) = some [0x31]
    ∧ FormatUint 4294967297 = [0x34, 0x32, 0x39, 0x34, 0x39, 0x36, 0x37, 0x32, 0x39, 0x37]
    ∧ Decode [0x3D, 0x79, 0x62, 0x65, 0x67, 0x69, 0x6E, 0x20, 0x6C, 0x69, 0x6E, 0x65, 0x3D, 0x31,
          0x32, 0x38, 0x20, 0x73, 0x69, 0x7A, 0x65, 0x3D, 0x31, 0x20, 0x6E, 0x61, 0x6D, 0x65,
          0x3D, 0x6D, 0x79, 0x20, 0x66, 0x69, 0x6C, 0x65, 0x2E, 0x62, 0x69, 0x6E, 0x0D, 0x0A,
          0x6B, 0x0D, 0x0A]
      = none := by
  refine ⟨ReadLines_long_line _ _ _ (by decide) (by decide), ?_, List.length_replicate _ _,
    by decide, by decide, by decide, by decide⟩
  exact Decode_long_line 4294967297 _ _
    [([0x6E, 0x61, 0x6D, 0x65], [0x61]), ([0x73, 0x69, 0x7A, 0x65], [0x31]), ([0x6C, 0x69, 0x6E,
      0x65], [0x31, 0x32, 0x38])]
    [([0x63, 0x72, 0x63, 0x33, 0x32], [0x30, 0x30, 0x30, 0x30, 0x30, 0x30, 0x30, 0x30]), ([0x73,
      0x69, 0x7A, 0x65], [0x31])]
    (by decide) (by decide) (by decide) (by decide) (by decide) (by decide) (by decide)
    (by decide)

theorem decodeLoop_no_header (lines : List (List Nat))
    (h : ∀ l ∈ lines, HasPrefix l Ybegin = false) :
    decodeLoop lines initialState = some initialState := by
  have := decodeLoop_before_header lines [] initialState rfl h
  simpa [decodeLoop] using this

/-- The envelope of a call of Decode that ends with the footer set. -/
theorem Decode_ok_envelope (lines : List (List Nat)) (s : DecState) (out : List Nat)
    (hloop : decodeLoop lines initialState = some s)
    (hval : validate s = { out := out, err := none }) :
    ∃ pre h mid f rest m1 m2, lines = pre ++ h :: (mid ++ f :: rest)
      ∧ HasPrefix h Ybegin = true ∧ HasPrefix f Yend = true
      ∧ ParseMarkerLine h Ybegin = some m1 ∧ ParseMarkerLine f Yend = some m2
      ∧ markerGet (some m1) sizeKey = FormatUint (out.length % 4294967296)
      ∧ markerGet (some m2) sizeKey = FormatUint (out.length % 4294967296) := by
  obtain ⟨hout, hsame, hcount⟩ := validate_ok s out hval
  have hne : markerGet s.footer sizeKey ≠ [] := by
    rw [← hsame, hcount]
    exact FormatUint_ne_nil _
  rcases decodeLoop_to_header lines with
    ⟨hall, hloop1⟩ | ⟨pre, h, rest, hl, hpre, hh, ⟨hp, hloop1⟩ | ⟨m1, hp, hloop1⟩⟩
  · rw [hloop1] at hloop
    rw [← Option.some.inj hloop] at hne
    exact absurd rfl hne
  · rw [hloop1] at hloop
    exact Option.noConfusion hloop
  · rcases decodeLoop_from_header rest { initialState with header := some m1 } rfl rfl with
      ⟨hall, hloop2⟩ | ⟨mid, g, rest4, hl2, hmid, ⟨hg, hloop2⟩ | ⟨_, hg, hp2, hloop2⟩ |
        ⟨_, hg, m2, hp2, hloop2⟩⟩
    · rw [hloop1, hloop2] at hloop
      rw [← Option.some.inj hloop, decodeBytes_footer] at hne
      exact absurd rfl hne
    · rw [hloop1, hloop2] at hloop
      rw [← Option.some.inj hloop, decodeBytes_footer] at hne
      exact absurd rfl hne
    · rw [hloop1, hloop2] at hloop
      exact Option.noConfusion hloop
    · rw [hloop1, hloop2] at hloop
      have hs := (Option.some.inj hloop).symm
      have hlen : s.outLength = out.length % 4294967296 := by
        rw [hout, hs]
        exact decodeBytes_outLength _ _ rfl
      have hhead : s.header = some m1 := by
        rw [hs]
        exact decodeBytes_header _ _
      have hfoot : s.footer = some m2 := by rw [hs]
      refine ⟨pre, h, mid, g, rest4, m1, m2, by rw [hl, hl2], hh, hg, hp, hp2, ?_, ?_⟩
      · rw [← hhead, hcount, hlen]
      · rw [← hfoot, ← hsame, hcount, hlen]

/-- On every input stream on which Decode returns no error, having written fewer than
2^32 bytes, the lines that ReadLine returns contain a line starting with "=ybegin" and,
after it, a line starting with "=yend", both parsed by ParseMarkerLine to a size
attribute that is the decimal count of the bytes written.  Decode returns an error on
the empty input, on an input with no line starting with "=ybegin", and on an input
whose header lines are parsed and that has no line starting with "=yend". -/
theorem Decode_success_needs_envelope (input : List Nat) :
    (∀ out, Decode input = some { out := out, err := none } → out.length < 4294967296 →
      ∃ pre h mid f rest m1 m2, ReadLines input = pre ++ h :: (mid ++ f :: rest)
        ∧ HasPrefix h Ybegin = true ∧ HasPrefix f Yend = true
        ∧ ParseMarkerLine h Ybegin = some m1 ∧ ParseMarkerLine f Yend = some m2
        ∧ markerGet (some m1) sizeKey = FormatUint out.length
        ∧ markerGet (some m2) sizeKey = FormatUint out.length)
    ∧ ((∀ l ∈ ReadLines input, HasPrefix l Ybegin = false) →
        ∃ e, Decode input = some { out := [], err := some e })
    ∧ ((∀ l ∈ ReadLines input, HasPrefix l Yend = false) →
        (∀ l ∈ ReadLines input, HasPrefix l Ybegin = true → ParseMarkerLine l Ybegin ≠ none) →
        ∃ out e, Decode input = some { out := out, err := some e })
    ∧ Decode [] = some { out := [], err := some (.readSizeDiffers [] 0) } := by
  refine ⟨?_, ?_, ?_, by decide⟩
  · intro out hdec hlt
    rw [Decode_eq_map] at hdec
    cases hloop : decodeLoop (ReadLines input) initialState with
    | none => rw [hloop] at hdec; exact Option.noConfusion hdec
    | some s =>
      rw [hloop, Option.map_some'] at hdec
      have := Decode_ok_envelope (ReadLines input) s out hloop (Option.some.inj hdec)
      rwa [Nat.mod_eq_of_lt hlt] at this
  · intro hall
    rw [Decode_eq_map, decodeLoop_no_header _ hall]
    exact ⟨.readSizeDiffers [] 0, by decide⟩
  · intro hnoend hparse
    rw [Decode_eq_map]
    rcases decodeLoop_to_header (ReadLines input) with
      ⟨hall, hloop1⟩ | ⟨pre, h, rest, hl, hpre, hh, ⟨hp, hloop1⟩ | ⟨m1, hp, hloop1⟩⟩
    · rw [hloop1]
      exact ⟨[], .readSizeDiffers [] 0, by decide⟩
    · exact absurd hp (hparse h (by simp [hl]) hh)
    · rcases decodeLoop_from_header rest { initialState with header := some m1 } rfl rfl with
        ⟨hall, hloop2⟩ | ⟨mid, g, rest4, hl2, hmid, ⟨hg, hloop2⟩ | ⟨_, hg, hp2, hloop2⟩ |
          ⟨_, hg, m2, hp2, hloop2⟩⟩
      · rw [hloop1, hloop2]
        obtain ⟨e, he⟩ := validate_no_footer
          (decodeBytes (payloadOf rest) { initialState with header := some m1 })
          (by rw [decodeBytes_footer]; rfl)
        exact ⟨_, e, by rw [Option.map_some', he]⟩
      · rw [hloop1, hloop2]
        obtain ⟨e, he⟩ := validate_no_footer
          (decodeBytes (payloadOf mid) { initialState with header := some m1 })
          (by rw [decodeBytes_footer]; rfl)
        exact ⟨_, e, by rw [Option.map_some', he]⟩
      · have := hnoend g (by simp [hl, hl2])
        rw [hg] at this
        exact Bool.noConfusion this
      · have := hnoend g (by simp [hl, hl2])
        rw [hg] at this
        exact Bool.noConfusion this

/-! ## A last line without line break -/

theorem ReadLines_tail_dropped (lines : List (List Nat)) (tail : List Nat)
    (h : ∀ l ∈ lines, 0x0A ∉ l) (hlf : 0x0A ∉ tail) (hcr : 0x0D ∉ tail)
    (hlen : tail.length = bufSize) :
    ReadLines (joinLines lines ++ tail) = lines := by
  unfold ReadLines
  rw [readLinesFrom_joinLines_append lines tail h,
    readLinesFrom_last_dropped tail [] 0 hlf hcr (by decide) (by simpa using hlen)]
  simp

theorem ReadLines_tail_kept (lines : List (List Nat)) (tail : List Nat)
    (h : ∀ l ∈ lines, 0x0A ∉ l) (hlf : 0x0A ∉ tail) (hne : tail ≠ [])
    (hlen : tail.length < bufSize) :
    ReadLines (joinLines lines ++ tail) = lines ++ [tail] := by
  unfold ReadLines
  rw [readLinesFrom_joinLines_append lines tail h,
    readLinesFrom_last_kept tail [] 0 hlf (Or.inr hne) (by simpa using hlen)]
  simp

theorem not_mem_append_replicate (x c n : Nat) (p : List Nat) (hp : x ∉ p) (hc : x ≠ c) :
    x ∉ p ++ List.replicate n c := by
  intro h
  rcases List.mem_append.1 h with h | h
  · exact hp h
  · exact hc (List.mem_replicate.1 h).2

/-- The line "=yend size=1 crc32=" followed by `n` bytes "0" is parsed, to the size "1". -/
theorem ParseMarkerLine_padded (n : Nat) :
    ∃ m, ParseMarkerLine ([0x3D, 0x79, 0x65, 0x6E, 0x64, 0x20, 0x73, 0x69, 0x7A, 0x65, 0x3D, 0x31,
      0x20, 0x63, 0x72, 0x63, 0x33, 0x32, 0x3D] ++ List.replicate n 0x30) Yend = some m
      ∧ markerGet (some m) sizeKey = [0x31] :=
  ParseMarkerLine_footer [0x31] (List.replicate n 0x30) (by decide)
    (fun h => absurd (List.mem_replicate.1 h).2 (by decide))

theorem HasPrefix_padded (n : Nat) :
    HasPrefix ([0x3D, 0x79, 0x65, 0x6E, 0x64, 0x20, 0x73, 0x69, 0x7A, 0x65, 0x3D, 0x31, 0x20,
      0x63, 0x72, 0x63, 0x33, 0x32, 0x3D] ++ List.replicate n 0x30) Yend = true := by
  simp [HasPrefix, Yend, List.isPrefixOf]

/-- Decode on noise, a header line of size "1", the payload line "k", the footer line
"=yend size=1 crc32=" with `n` bytes "0", and anything after it: the byte "A", no error. -/
theorem Decode_padded_footer (input : List Nat) (pre rest : List (List Nat)) (h : List Nat)
    (m1 : Marker) (n : Nat)
    (hread : ReadLines input
      = pre ++ h :: ([[0x6B]] ++ ([0x3D, 0x79, 0x65, 0x6E, 0x64, 0x20, 0x73, 0x69, 0x7A, 0x65,
        0x3D, 0x31, 0x20, 0x63, 0x72, 0x63, 0x33, 0x32, 0x3D] ++ List.replicate n 0x30) :: rest))
    (hpre : ∀ l ∈ pre, HasPrefix l Ybegin = false)
    (hh : HasPrefix h Ybegin = true) (hm1 : ParseMarkerLine h Ybegin = some m1)
    (hs1 : markerGet (some m1) sizeKey = [0x31]) :
    Decode input = some { out := [0x41], err := none } := by
  obtain ⟨m2, hm2, hs2⟩ := ParseMarkerLine_padded n
  unfold Decode
  rw [hread, decodeLoop_envelope pre [[0x6B]] rest h _ m1 m2 hpre hh hm1 (by decide)
    (HasPrefix_padded n) hm2]
  have hstate : decodeBytes (payloadOf [[0x6B]]) { initialState with header := some m1 }
      = { wr := [0x41], outLength := 1, isEscape := false, header := some m1,
          footer := none } := rfl
  rw [hstate]
  simp only [validate, hs1, hs2]
  decide

/-- C13 (the code at an input of the claim): let T be the stream
"=ybegin size=1" CRLF "k" CRLF and the footer line "=yend size=1 crc32=" with 4077 bytes
"0", a line of 4096 bytes that no line break follows.  T contains a header line and
ends with its footer line.  The footer fills the buffer of the reader, ReadLine returns
it together with io.EOF, and Decode leaves its loop without it: on T Decode returns the
error of line 195.  On the stream made of the line "From: x", the lines of T and the
line "bye", each followed by CRLF, Decode returns no error. -/
theorem C13_unterminated_footer_is_dropped :
    ([0x3D, 0x79, 0x65, 0x6E, 0x64, 0x20, 0x73, 0x69, 0x7A, 0x65, 0x3D, 0x31, 0x20, 0x63, 0x72,
      0x63, 0x33, 0x32, 0x3D] ++ List.replicate 4077 0x30).length = 4096
    ∧ ReadLines ([0x3D, 0x79, 0x62, 0x65, 0x67, 0x69, 0x6E, 0x20, 0x73, 0x69, 0x7A, 0x65, 0x3D,
      0x31, 0x0D, 0x0A, 0x6B, 0x0D, 0x0A] ++ ([0x3D, 0x79, 0x65, 0x6E, 0x64, 0x20, 0x73, 0x69,
      0x7A, 0x65, 0x3D, 0x31, 0x20, 0x63, 0x72, 0x63, 0x33, 0x32, 0x3D] ++ List.replicate 4077
      0x30))
      = [[0x3D, 0x79, 0x62, 0x65, 0x67, 0x69, 0x6E, 0x20, 0x73, 0x69, 0x7A, 0x65, 0x3D, 0x31],
        [0x6B]]
    ∧ Decode ([0x3D, 0x79, 0x62, 0x65, 0x67, 0x69, 0x6E, 0x20, 0x73, 0x69, 0x7A, 0x65, 0x3D, 0x31,
      0x0D, 0x0A, 0x6B, 0x0D, 0x0A] ++ ([0x3D, 0x79, 0x65, 0x6E, 0x64, 0x20, 0x73, 0x69, 0x7A,
      0x65, 0x3D, 0x31, 0x20, 0x63, 0x72, 0x63, 0x33, 0x32, 0x3D] ++ List.replicate 4077 0x30))
      = some { out := [0x41], err := some (.sizesDiffer [0x31] []) }
    ∧ ReadLines ([0x46, 0x72, 0x6F, 0x6D, 0x3A, 0x20, 0x78, 0x0D, 0x0A, 0x3D, 0x79, 0x62, 0x65,
      0x67, 0x69, 0x6E, 0x20, 0x73, 0x69, 0x7A, 0x65, 0x3D, 0x31, 0x0D, 0x0A, 0x6B, 0x0D, 0x0A]
        ++ ([0x3D, 0x79, 0x65, 0x6E, 0x64, 0x20, 0x73, 0x69, 0x7A, 0x65, 0x3D, 0x31, 0x20, 0x63,
          0x72, 0x63, 0x33, 0x32, 0x3D] ++ List.replicate 4077 0x30) ++ [0x0D, 0x0A, 0x62, 0x79,
          0x65, 0x0D, 0x0A])
      = [[0x46, 0x72, 0x6F, 0x6D, 0x3A, 0x20, 0x78], [0x3D, 0x79, 0x62, 0x65, 0x67, 0x69, 0x6E,
        0x20, 0x73, 0x69, 0x7A, 0x65, 0x3D, 0x31], [0x6B],
          [0x3D, 0x79, 0x65, 0x6E, 0x64, 0x20, 0x73, 0x69, 0x7A, 0x65, 0x3D, 0x31, 0x20, 0x63,
            0x72, 0x63, 0x33, 0x32, 0x3D] ++ List.replicate 4077 0x30, [0x62, 0x79, 0x65]]
    ∧ Decode ([0x46, 0x72, 0x6F, 0x6D, 0x3A, 0x20, 0x78, 0x0D, 0x0A, 0x3D, 0x79, 0x62, 0x65, 0x67,
      0x69, 0x6E, 0x20, 0x73, 0x69, 0x7A, 0x65, 0x3D, 0x31, 0x0D, 0x0A, 0x6B, 0x0D, 0x0A]
        ++ ([0x3D, 0x79, 0x65, 0x6E, 0x64, 0x20, 0x73, 0x69, 0x7A, 0x65, 0x3D, 0x31, 0x20, 0x63,
          0x72, 0x63, 0x33, 0x32, 0x3D] ++ List.replicate 4077 0x30) ++ [0x0D, 0x0A, 0x62, 0x79,
          0x65, 0x0D, 0x0A])
      = some { out := [0x41], err := none } := by
  have hlf := not_mem_append_replicate 0x0A 0x30 4077 [0x3D, 0x79, 0x65, 0x6E, 0x64, 0x20, 0x73,
    0x69, 0x7A, 0x65, 0x3D, 0x31, 0x20, 0x63, 0x72, 0x63, 0x33, 0x32, 0x3D] (by decide)
    (by decide)
  have hcr := not_mem_append_replicate 0x0D 0x30 4077 [0x3D, 0x79, 0x65, 0x6E, 0x64, 0x20, 0x73,
    0x69, 0x7A, 0x65, 0x3D, 0x31, 0x20, 0x63, 0x72, 0x63, 0x33, 0x32, 0x3D] (by decide)
    (by decide)
  have hlen : ([0x3D, 0x79, 0x65, 0x6E, 0x64, 0x20, 0x73, 0x69, 0x7A, 0x65, 0x3D, 0x31, 0x20,
    0x63, 0x72, 0x63, 0x33, 0x32, 0x3D] ++ List.replicate 4077 0x30).length = 4096 := by
    rw [List.length_append, List.length_replicate]
    rfl
  have hT : ReadLines ([0x3D, 0x79, 0x62, 0x65, 0x67, 0x69, 0x6E, 0x20, 0x73, 0x69, 0x7A, 0x65,
    0x3D, 0x31, 0x0D, 0x0A, 0x6B, 0x0D, 0x0A]
        ++ ([0x3D, 0x79, 0x65, 0x6E, 0x64, 0x20, 0x73, 0x69, 0x7A, 0x65, 0x3D, 0x31, 0x20, 0x63,
          0x72, 0x63, 0x33, 0x32, 0x3D] ++ List.replicate 4077 0x30))
      = [[0x3D, 0x79, 0x62, 0x65, 0x67, 0x69, 0x6E, 0x20, 0x73, 0x69, 0x7A, 0x65, 0x3D, 0x31],
        [0x6B]] :=
    ReadLines_tail_dropped [[0x3D, 0x79, 0x62, 0x65, 0x67, 0x69, 0x6E, 0x20, 0x73, 0x69, 0x7A,
      0x65, 0x3D, 0x31], [0x6B]] _ (by decide) hlf hcr hlen
  have hPTQ : ReadLines ([0x46, 0x72, 0x6F, 0x6D, 0x3A, 0x20, 0x78, 0x0D, 0x0A, 0x3D, 0x79, 0x62,
    0x65, 0x67, 0x69, 0x6E, 0x20, 0x73, 0x69, 0x7A, 0x65, 0x3D, 0x31, 0x0D, 0x0A, 0x6B, 0x0D,
    0x0A]
        ++ ([0x3D, 0x79, 0x65, 0x6E, 0x64, 0x20, 0x73, 0x69, 0x7A, 0x65, 0x3D, 0x31, 0x20, 0x63,
          0x72, 0x63, 0x33, 0x32, 0x3D] ++ List.replicate 4077 0x30) ++ [0x0D, 0x0A, 0x62, 0x79,
          0x65, 0x0D, 0x0A])
      = [[0x46, 0x72, 0x6F, 0x6D, 0x3A, 0x20, 0x78], [0x3D, 0x79, 0x62, 0x65, 0x67, 0x69, 0x6E,
        0x20, 0x73, 0x69, 0x7A, 0x65, 0x3D, 0x31], [0x6B],
          [0x3D, 0x79, 0x65, 0x6E, 0x64, 0x20, 0x73, 0x69, 0x7A, 0x65, 0x3D, 0x31, 0x20, 0x63,
            0x72, 0x63, 0x33, 0x32, 0x3D] ++ List.replicate 4077 0x30, [0x62, 0x79, 0x65]] := by
    have hj : [0x46, 0x72, 0x6F, 0x6D, 0x3A, 0x20, 0x78, 0x0D, 0x0A, 0x3D, 0x79, 0x62, 0x65, 0x67,
      0x69, 0x6E, 0x20, 0x73, 0x69, 0x7A, 0x65, 0x3D, 0x31, 0x0D, 0x0A, 0x6B, 0x0D, 0x0A]
          ++ ([0x3D, 0x79, 0x65, 0x6E, 0x64, 0x20, 0x73, 0x69, 0x7A, 0x65, 0x3D, 0x31, 0x20, 0x63,
            0x72, 0x63, 0x33, 0x32, 0x3D] ++ List.replicate 4077 0x30) ++ [0x0D, 0x0A, 0x62, 0x79,
            0x65, 0x0D, 0x0A]
        = joinLines [[0x46, 0x72, 0x6F, 0x6D, 0x3A, 0x20, 0x78], [0x3D, 0x79, 0x62, 0x65, 0x67,
          0x69, 0x6E, 0x20, 0x73, 0x69, 0x7A, 0x65, 0x3D, 0x31], [0x6B],
            [0x3D, 0x79, 0x65, 0x6E, 0x64, 0x20, 0x73, 0x69, 0x7A, 0x65, 0x3D, 0x31, 0x20, 0x63,
              0x72, 0x63, 0x33, 0x32, 0x3D] ++ List.replicate 4077 0x30, [0x62, 0x79, 0x65]] := by
      simp only [joinLines, CRLF, List.flatMap_cons, List.flatMap_nil, List.append_assoc,
        List.cons_append, List.nil_append, List.append_nil]
    rw [hj]
    apply readLinesFrom_joinLines
    intro l hl
    simp only [List.mem_cons, List.not_mem_nil, or_false] at hl
    rcases hl with rfl | rfl | rfl | rfl | rfl
    · decide
    · decide
    · decide
    · exact hlf
    · decide
  refine ⟨hlen, hT, ?_, hPTQ, ?_⟩
  · rw [Decode_eq_map, hT]
    decide
  · exact Decode_padded_footer _ [[0x46, 0x72, 0x6F, 0x6D, 0x3A, 0x20, 0x78]] [[0x62, 0x79, 0x65]]
      [0x3D, 0x79, 0x62, 0x65, 0x67, 0x69, 0x6E, 0x20, 0x73, 0x69, 0x7A, 0x65, 0x3D, 0x31]
      [([0x73, 0x69, 0x7A, 0x65], [0x31])] 4077
      hPTQ (by decide) (by decide) (by decide) (by decide)

/-- C19 (the code at inputs of the claim): two streams that differ only in the value of
the crc32 attribute of the footer line.  Both are "=ybegin line=128 size=1 name=a" CRLF
"k" CRLF and the footer line "=yend size=1 crc32=" with a value of bytes "0" that no line
break follows; the value has 4076 bytes in the first, which makes a footer line of 4095
bytes, and 4077 bytes in the second, a footer line of 4096 bytes.  On the first Decode
returns no error; on the second the footer fills the buffer of the reader, ReadLine
returns it together with io.EOF, Decode leaves its loop without it and returns the
error of line 195. -/
theorem C19_result_depends_on_crc32_value :
    ([0x3D, 0x79, 0x65, 0x6E, 0x64, 0x20, 0x73, 0x69, 0x7A, 0x65, 0x3D, 0x31, 0x20, 0x63, 0x72,
          0x63, 0x33, 0x32, 0x3D] ++ List.replicate 4076 0x30).length = 4095
    ∧ ([0x3D, 0x79, 0x65, 0x6E, 0x64, 0x20, 0x73, 0x69, 0x7A, 0x65, 0x3D, 0x31, 0x20, 0x63, 0x72,
          0x63, 0x33, 0x32, 0x3D] ++ List.replicate 4077 0x30).length = 4096
    ∧ ReadLines ([0x3D, 0x79, 0x62, 0x65, 0x67, 0x69, 0x6E, 0x20, 0x6C, 0x69, 0x6E, 0x65, 0x3D,
          0x31, 0x32, 0x38, 0x20, 0x73, 0x69, 0x7A, 0x65, 0x3D, 0x31, 0x20, 0x6E, 0x61, 0x6D,
          0x65, 0x3D, 0x61, 0x0D, 0x0A, 0x6B, 0x0D, 0x0A]
        ++ ([0x3D, 0x79, 0x65, 0x6E, 0x64, 0x20, 0x73, 0x69, 0x7A, 0x65, 0x3D, 0x31, 0x20, 0x63,
              0x72, 0x63, 0x33, 0x32, 0x3D] ++ List.replicate 4076 0x30))
      = [[0x3D, 0x79, 0x62, 0x65, 0x67, 0x69, 0x6E, 0x20, 0x6C, 0x69, 0x6E, 0x65, 0x3D, 0x31,
            0x32, 0x38, 0x20, 0x73, 0x69, 0x7A, 0x65, 0x3D, 0x31, 0x20, 0x6E, 0x61, 0x6D, 0x65,
            0x3D, 0x61], [0x6B],
          [0x3D, 0x79, 0x65, 0x6E, 0x64, 0x20, 0x73, 0x69, 0x7A, 0x65, 0x3D, 0x31, 0x20, 0x63,
                0x72, 0x63, 0x33, 0x32, 0x3D] ++ List.replicate 4076 0x30]
    ∧ Decode ([0x3D, 0x79, 0x62, 0x65, 0x67, 0x69, 0x6E, 0x20, 0x6C, 0x69, 0x6E, 0x65, 0x3D, 0x31,
          0x32, 0x38, 0x20, 0x73, 0x69, 0x7A, 0x65, 0x3D, 0x31, 0x20, 0x6E, 0x61, 0x6D, 0x65,
          0x3D, 0x61, 0x0D, 0x0A, 0x6B, 0x0D, 0x0A]
        ++ ([0x3D, 0x79, 0x65, 0x6E, 0x64, 0x20, 0x73, 0x69, 0x7A, 0x65, 0x3D, 0x31, 0x20, 0x63,
              0x72, 0x63, 0x33, 0x32, 0x3D] ++ List.replicate 4076 0x30))
      = some { out := [0x41], err := none }
    ∧ ReadLines ([0x3D, 0x79, 0x62, 0x65, 0x67, 0x69, 0x6E, 0x20, 0x6C, 0x69, 0x6E, 0x65, 0x3D,
          0x31, 0x32, 0x38, 0x20, 0x73, 0x69, 0x7A, 0x65, 0x3D, 0x31, 0x20, 0x6E, 0x61, 0x6D,
          0x65, 0x3D, 0x61, 0x0D, 0x0A, 0x6B, 0x0D, 0x0A]
        ++ ([0x3D, 0x79, 0x65, 0x6E, 0x64, 0x20, 0x73, 0x69, 0x7A, 0x65, 0x3D, 0x31, 0x20, 0x63,
              0x72, 0x63, 0x33, 0x32, 0x3D] ++ List.replicate 4077 0x30))
      = [[0x3D, 0x79, 0x62, 0x65, 0x67, 0x69, 0x6E, 0x20, 0x6C, 0x69, 0x6E, 0x65, 0x3D, 0x31,
            0x32, 0x38, 0x20, 0x73, 0x69, 0x7A, 0x65, 0x3D, 0x31, 0x20, 0x6E, 0x61, 0x6D, 0x65,
            0x3D, 0x61], [0x6B]]
    ∧ Decode ([0x3D, 0x79, 0x62, 0x65, 0x67, 0x69, 0x6E, 0x20, 0x6C, 0x69, 0x6E, 0x65, 0x3D, 0x31,
          0x32, 0x38, 0x20, 0x73, 0x69, 0x7A, 0x65, 0x3D, 0x31, 0x20, 0x6E, 0x61, 0x6D, 0x65,
          0x3D, 0x61, 0x0D, 0x0A, 0x6B, 0x0D, 0x0A]
        ++ ([0x3D, 0x79, 0x65, 0x6E, 0x64, 0x20, 0x73, 0x69, 0x7A, 0x65, 0x3D, 0x31, 0x20, 0x63,
              0x72, 0x63, 0x33, 0x32, 0x3D] ++ List.replicate 4077 0x30))
      = some { out := [0x41], err := some (.sizesDiffer [0x31] []) } := by
  have hlf : ∀ n, 0x0A ∉ [0x3D, 0x79, 0x65, 0x6E, 0x64, 0x20, 0x73, 0x69, 0x7A, 0x65, 0x3D, 0x31,
        0x20, 0x63, 0x72, 0x63, 0x33, 0x32, 0x3D] ++ List.replicate n 0x30 := fun n =>
    not_mem_append_replicate 0x0A 0x30 n [0x3D, 0x79, 0x65, 0x6E, 0x64, 0x20, 0x73, 0x69, 0x7A,
          0x65, 0x3D, 0x31, 0x20, 0x63, 0x72, 0x63, 0x33, 0x32, 0x3D] (by decide) (by decide)
  have hcr : ∀ n, 0x0D ∉ [0x3D, 0x79, 0x65, 0x6E, 0x64, 0x20, 0x73, 0x69, 0x7A, 0x65, 0x3D, 0x31,
        0x20, 0x63, 0x72, 0x63, 0x33, 0x32, 0x3D] ++ List.replicate n 0x30 := fun n =>
    not_mem_append_replicate 0x0D 0x30 n [0x3D, 0x79, 0x65, 0x6E, 0x64, 0x20, 0x73, 0x69, 0x7A,
          0x65, 0x3D, 0x31, 0x20, 0x63, 0x72, 0x63, 0x33, 0x32, 0x3D] (by decide) (by decide)
  have hlen1 : ([0x3D, 0x79, 0x65, 0x6E, 0x64, 0x20, 0x73, 0x69, 0x7A, 0x65, 0x3D, 0x31, 0x20,
        0x63, 0x72, 0x63, 0x33, 0x32, 0x3D] ++ List.replicate 4076 0x30).length = 4095 := by
    rw [List.length_append, List.length_replicate]
    rfl
  have hlen2 : ([0x3D, 0x79, 0x65, 0x6E, 0x64, 0x20, 0x73, 0x69, 0x7A, 0x65, 0x3D, 0x31, 0x20,
        0x63, 0x72, 0x63, 0x33, 0x32, 0x3D] ++ List.replicate 4077 0x30).length = 4096 := by
    rw [List.length_append, List.length_replicate]
    rfl
  have h1 : ReadLines ([0x3D, 0x79, 0x62, 0x65, 0x67, 0x69, 0x6E, 0x20, 0x6C, 0x69, 0x6E, 0x65,
        0x3D, 0x31, 0x32, 0x38, 0x20, 0x73, 0x69, 0x7A, 0x65, 0x3D, 0x31, 0x20, 0x6E, 0x61, 0x6D,
        0x65, 0x3D, 0x61, 0x0D, 0x0A, 0x6B, 0x0D, 0x0A]
        ++ ([0x3D, 0x79, 0x65, 0x6E, 0x64, 0x20, 0x73, 0x69, 0x7A, 0x65, 0x3D, 0x31, 0x20, 0x63,
              0x72, 0x63, 0x33, 0x32, 0x3D] ++ List.replicate 4076 0x30))
      = [[0x3D, 0x79, 0x62, 0x65, 0x67, 0x69, 0x6E, 0x20, 0x6C, 0x69, 0x6E, 0x65, 0x3D, 0x31,
            0x32, 0x38, 0x20, 0x73, 0x69, 0x7A, 0x65, 0x3D, 0x31, 0x20, 0x6E, 0x61, 0x6D, 0x65,
            0x3D, 0x61], [0x6B],
          [0x3D, 0x79, 0x65, 0x6E, 0x64, 0x20, 0x73, 0x69, 0x7A, 0x65, 0x3D, 0x31, 0x20, 0x63,
                0x72, 0x63, 0x33, 0x32, 0x3D] ++ List.replicate 4076 0x30] :=
    ReadLines_tail_kept [[0x3D, 0x79, 0x62, 0x65, 0x67, 0x69, 0x6E, 0x20, 0x6C, 0x69, 0x6E, 0x65,
          0x3D, 0x31, 0x32, 0x38, 0x20, 0x73, 0x69, 0x7A, 0x65, 0x3D, 0x31, 0x20, 0x6E, 0x61,
          0x6D, 0x65, 0x3D, 0x61], [0x6B]] _ (by decide) (hlf 4076)
      (fun h => by
        have hl := congrArg List.length h
        rw [hlen1] at hl
        exact absurd hl (by decide))
      (by rw [hlen1]; decide)
  have h2 : ReadLines ([0x3D, 0x79, 0x62, 0x65, 0x67, 0x69, 0x6E, 0x20, 0x6C, 0x69, 0x6E, 0x65,
        0x3D, 0x31, 0x32, 0x38, 0x20, 0x73, 0x69, 0x7A, 0x65, 0x3D, 0x31, 0x20, 0x6E, 0x61, 0x6D,
        0x65, 0x3D, 0x61, 0x0D, 0x0A, 0x6B, 0x0D, 0x0A]
        ++ ([0x3D, 0x79, 0x65, 0x6E, 0x64, 0x20, 0x73, 0x69, 0x7A, 0x65, 0x3D, 0x31, 0x20, 0x63,
              0x72, 0x63, 0x33, 0x32, 0x3D] ++ List.replicate 4077 0x30))
      = [[0x3D, 0x79, 0x62, 0x65, 0x67, 0x69, 0x6E, 0x20, 0x6C, 0x69, 0x6E, 0x65, 0x3D, 0x31,
            0x32, 0x38, 0x20, 0x73, 0x69, 0x7A, 0x65, 0x3D, 0x31, 0x20, 0x6E, 0x61, 0x6D, 0x65,
            0x3D, 0x61], [0x6B]] :=
    ReadLines_tail_dropped [[0x3D, 0x79, 0x62, 0x65, 0x67, 0x69, 0x6E, 0x20, 0x6C, 0x69, 0x6E,
          0x65, 0x3D, 0x31, 0x32, 0x38, 0x20, 0x73, 0x69, 0x7A, 0x65, 0x3D, 0x31, 0x20, 0x6E,
          0x61, 0x6D, 0x65, 0x3D, 0x61], [0x6B]] _ (by decide) (hlf 4077)
      (hcr 4077) hlen2
  refine ⟨hlen1, hlen2, h1, ?_, h2, ?_⟩
  · exact Decode_padded_footer _ [] [] [0x3D, 0x79, 0x62, 0x65, 0x67, 0x69, 0x6E, 0x20, 0x6C,
        0x69, 0x6E, 0x65, 0x3D, 0x31, 0x32, 0x38, 0x20, 0x73, 0x69, 0x7A, 0x65, 0x3D, 0x31, 0x20,
        0x6E, 0x61, 0x6D, 0x65, 0x3D, 0x61]
      [([0x6E, 0x61, 0x6D, 0x65], [0x61]), ([0x73, 0x69, 0x7A, 0x65], [0x31]), ([0x6C, 0x69, 0x6E,
            0x65], [0x31, 0x32, 0x38])] 4076
      h1 (by decide) (by decide) (by decide) (by decide)
  · rw [Decode_eq_map, h2]
    decide

theorem decodePayload_replicate (n : Nat) :
    decodePayload (List.replicate n 0x6B) = List.replicate n 0x41 := by
  unfold decodePayload
  rw [← encodeBytes_replicate,
    decodeBytes_encodeBytes _ (isBytes_replicate n) _ rfl (by simp [initialState])]
  simp [initialState]

/-- C18 (the code at inputs of the claim): the stream "=ybegin size=4096" CRLF followed
by a payload line of 4096 bytes "k" that no line break follows.  The payload line fills
the buffer of the reader, ReadLine returns it together with io.EOF, and Decode leaves
its loop without it: Decode writes nothing, where the reverse byte transform of the
payload line is 4096 bytes "A".  And on "=ybegin size=1" CRLF "k" CRLF "=yend" CRLF, whose
one payload line "k" decodes to "A", Decode panics in ParseMarkerLine on the footer
line, before line 191 flushes the byte handed to the buffered writer. -/
theorem C18_payload_line_is_lost :
    ReadLines ([0x3D, 0x79, 0x62, 0x65, 0x67, 0x69, 0x6E, 0x20, 0x73, 0x69, 0x7A, 0x65, 0x3D,
          0x34, 0x30, 0x39, 0x36, 0x0D, 0x0A] ++ List.replicate 4096 0x6B) = [[0x3D, 0x79, 0x62,
          0x65, 0x67, 0x69, 0x6E, 0x20, 0x73, 0x69, 0x7A, 0x65, 0x3D, 0x34, 0x30, 0x39, 0x36]]
    ∧ Decode ([0x3D, 0x79, 0x62, 0x65, 0x67, 0x69, 0x6E, 0x20, 0x73, 0x69, 0x7A, 0x65, 0x3D, 0x34,
          0x30, 0x39, 0x36, 0x0D, 0x0A] ++ List.replicate 4096 0x6B)
      = some { out := [], err := some (.sizesDiffer [0x34, 0x30, 0x39, 0x36] []) }
    ∧ decodePayload (List.replicate 4096 0x6B) = List.replicate 4096 0x41
    ∧ streamPayload (ReadLines [0x3D, 0x79, 0x62, 0x65, 0x67, 0x69, 0x6E, 0x20, 0x73, 0x69, 0x7A,
          0x65, 0x3D, 0x31, 0x0D, 0x0A, 0x6B, 0x0D, 0x0A, 0x3D, 0x79, 0x65, 0x6E, 0x64, 0x0D,
          0x0A]) = [[0x6B]]
    ∧ decodePayload [0x6B] = [0x41]
    ∧ Decode [0x3D, 0x79, 0x62, 0x65, 0x67, 0x69, 0x6E, 0x20, 0x73, 0x69, 0x7A, 0x65, 0x3D, 0x31,
          0x0D, 0x0A, 0x6B, 0x0D, 0x0A, 0x3D, 0x79, 0x65, 0x6E, 0x64, 0x0D, 0x0A] = none := by
  have h1 : ReadLines ([0x3D, 0x79, 0x62, 0x65, 0x67, 0x69, 0x6E, 0x20, 0x73, 0x69, 0x7A, 0x65,
        0x3D, 0x34, 0x30, 0x39, 0x36, 0x0D, 0x0A] ++ List.replicate 4096 0x6B)
      = [[0x3D, 0x79, 0x62, 0x65, 0x67, 0x69, 0x6E, 0x20, 0x73, 0x69, 0x7A, 0x65, 0x3D, 0x34,
            0x30, 0x39, 0x36]] :=
    ReadLines_tail_dropped [[0x3D, 0x79, 0x62, 0x65, 0x67, 0x69, 0x6E, 0x20, 0x73, 0x69, 0x7A,
          0x65, 0x3D, 0x34, 0x30, 0x39, 0x36]] _ (by decide)
      (fun h => absurd (List.mem_replicate.1 h).2 (by decide))
      (fun h => absurd (List.mem_replicate.1 h).2 (by decide))
      (List.length_replicate _ _)
  refine ⟨h1, ?_, decodePayload_replicate 4096, by decide, by decide, by decide⟩
  rw [Decode_eq_map, h1]
  decide

end Yenc


